import Mathlib

/-!
Shallow embedding of the ESP32-CAM smart zone switch firmware
(`smartswitch.ino`, `motion_detector.h` / zone manager, `mjpeg_stream.cpp`,
`config.h`), together with theorems checking the natural-language
specification against it.

Conventions of the embedding:
* machine integers are `Int`/`Nat`; where C unsigned wraparound matters it is
  made explicit (`sizeTsub` models `size_t` subtraction);
* `millis()` timestamps are `Nat` arguments threaded through the functions;
* physical GPIO writes (`digitalWrite` issued by `setRelayPinState` or by
  relay-state initialization) are recorded in an explicit write log, as pairs
  of pin and logical level;
* the Serial logging of the firmware has no observable effect on the modelled
  state and is omitted.
-/

/-- MAX_ZONES from config.h. -/
def MAX_ZONES : Nat := 10

/-- WATCHDOG_TIMEOUT from smartswitch.ino (milliseconds). -/
def WATCHDOG_TIMEOUT : Nat := 60000

/-- MJPEG_BUFFER_SIZE from mjpeg_stream.h. -/
def MJPEG_BUFFER_SIZE : Nat := 100 * 1024

/-- Detection struct: normalized [0,1] bounding box plus confidence.  The C
floats are embedded as rationals. -/
structure Detection where
  x : ℚ
  y : ℚ
  width : ℚ
  height : ℚ
  confidence : ℚ
  deriving Repr, DecidableEq

/-- Zone struct from config.h.  `relayPins` holds the first `numRelays`
entries of the C array (all loops in the source run over exactly those). -/
structure Zone where
  id : Int
  x : Int
  y : Int
  width : Int
  height : Int
  relayPins : List Int
  timeout : Int
  active : Bool
  lastDetectionTime : Nat
  deriving Repr, DecidableEq

/-- RelayState struct private to ZoneManager. -/
structure RelayState where
  pin : Int
  active : Bool
  lastActivationTime : Nat
  activationCount : Nat
  deriving Repr, DecidableEq

/-- The mutable state owned by ZoneManager (zones live in `config->zones`),
plus an explicit log of physical GPIO writes as (pin, logical level). -/
structure ZMState where
  zones : List Zone
  relayStates : List RelayState
  totalDetections : Nat
  zoneDetectionCounts : List Nat
  writes : List (Int × Bool)
  deriving Repr, DecidableEq

/-- ZoneManager::getRelayStatePtr — first relay record with the given pin. -/
def findRelay (rs : List RelayState) (pin : Int) : Option RelayState :=
  rs.find? (fun r => r.pin == pin)

/-- Mutation through getRelayStatePtr: update the first record whose pin
matches, leave everything else untouched. -/
def applyToPin (rs : List RelayState) (pin : Int) (f : RelayState → RelayState) :
    List RelayState :=
  match rs with
  | [] => []
  | r :: rest => if r.pin == pin then f r :: rest else r :: applyToPin rest pin f

/-- ZoneManager::activateRelay.  The guarded `setRelayPinState(pin, true)`
becomes a `(pin, true)` entry in the write log. -/
def activateRelay (s : ZMState) (pin : Int) (now : Nat) : ZMState :=
  match findRelay s.relayStates pin with
  | none => s
  | some st =>
    if st.active then s
    else
      { s with
        relayStates := applyToPin s.relayStates pin
          (fun r => { r with active := true, lastActivationTime := now,
                             activationCount := r.activationCount + 1 }),
        writes := s.writes ++ [(pin, true)] }

/-- ZoneManager::deactivateRelay. -/
def deactivateRelay (s : ZMState) (pin : Int) : ZMState :=
  match findRelay s.relayStates pin with
  | none => s
  | some st =>
    if st.active then
      { s with
        relayStates := applyToPin s.relayStates pin (fun r => { r with active := false }),
        writes := s.writes ++ [(pin, false)] }
    else s

/-- ZoneManager::getRelayState. -/
def getRelayState (s : ZMState) (pin : Int) : Bool :=
  match findRelay s.relayStates pin with
  | some st => st.active
  | none => false

/-- ZoneManager::disableAllRelays: force every known relay OFF (one physical
write per relay record, unconditionally) and every zone inactive. -/
def disableAllRelays (s : ZMState) : ZMState :=
  { s with
    relayStates := s.relayStates.map (fun r => { r with active := false }),
    zones := s.zones.map (fun z => { z with active := false }),
    writes := s.writes ++ s.relayStates.map (fun r => (r.pin, false)) }

/-- ZoneManager::initializeRelayState: register the pin once; the GPIO setup
write `digitalWrite(pin, inactive level)` is logged as `(pin, false)`. -/
def initRelayState (s : ZMState) (pin : Int) : ZMState :=
  if s.relayStates.any (fun r => r.pin == pin) then s
  else
    { s with
      relayStates := s.relayStates ++ [⟨pin, false, 0, 0⟩],
      writes := s.writes ++ [(pin, false)] }

/-- ZoneManager::addZone. -/
def addZone (s : ZMState) (z : Zone) : Bool × ZMState :=
  if s.zones.length ≥ MAX_ZONES then (false, s)
  else
    let s1 := { s with zones := s.zones ++ [z],
                       zoneDetectionCounts := s.zoneDetectionCounts ++ [0] }
    (true, z.relayPins.foldl (fun acc pin => initRelayState acc pin) s1)

/-- ZoneManager::removeZone: find the zone by id; if it is active, clear its
flag and deactivate every one of its relays (no sharing check), then erase. -/
def removeZone (s : ZMState) (zoneId : Int) : Bool × ZMState :=
  match s.zones.findIdx? (fun z => z.id == zoneId) with
  | none => (false, s)
  | some i =>
    match s.zones.get? i with
    | none => (false, s)
    | some z =>
      let s1 :=
        if z.active then
          let s0 := { s with zones := s.zones.set i { z with active := false } }
          z.relayPins.foldl (fun acc pin => deactivateRelay acc pin) s0
        else s
      (true, { s1 with zones := s1.zones.eraseIdx i,
                       zoneDetectionCounts := s1.zoneDetectionCounts.eraseIdx i })

/-- ZoneManager::updateZone: wholesale replacement of the found zone. -/
def updateZone (s : ZMState) (zoneId : Int) (z : Zone) : Bool × ZMState :=
  match s.zones.findIdx? (fun zz => zz.id == zoneId) with
  | none => (false, s)
  | some i => (true, { s with zones := s.zones.set i z })

/-- Truncation toward zero, the behaviour of the C `(int)` cast applied to a
nonnegative or negative rational. -/
def truncQ (q : ℚ) : Int :=
  if 0 ≤ q then ⌊q⌋ else -⌊-q⌋

/-- ZoneManager::checkOverlap: scale the normalized detection into pixel
space and test strict axis-aligned rectangle overlap. -/
def checkOverlap (d : Detection) (z : Zone) (frameWidth frameHeight : Int) : Bool :=
  let detX := truncQ (d.x * (frameWidth : ℚ))
  let detY := truncQ (d.y * (frameHeight : ℚ))
  let detWidth := truncQ (d.width * (frameWidth : ℚ))
  let detHeight := truncQ (d.height * (frameHeight : ℚ))
  decide (detX < z.x + z.width) && decide (detX + detWidth > z.x) &&
  decide (detY < z.y + z.height) && decide (detY + detHeight > z.y)

/-- Inner scan of ZoneManager::updateZoneState: is the relay pin used by an
active zone with a different id. -/
def usedByOtherZone (zones : List Zone) (zoneId : Int) (pin : Int) : Bool :=
  zones.any (fun oz => oz.id != zoneId && oz.active && oz.relayPins.contains pin)

/-- The C cast `(unsigned long)(zone->timeout * 1000)` (32-bit unsigned). -/
def timeoutMs (t : Int) : Nat :=
  ((t * 1000) % (2 ^ 32 : Int)).toNat

/-- ZoneManager::updateZoneState on the zone at index `i`.  `now` is the
`millis()` reading; elapsed time is `now - lastDetectionTime` (the unsigned
subtraction never wraps because `millis` is monotone, so `Nat` subtraction is
used). -/
def updateZoneState (s : ZMState) (i : Nat) (detected : Bool) (now : Nat) : ZMState :=
  match s.zones.get? i with
  | none => s
  | some z =>
    if detected then
      let z1 := { z with active := true, lastDetectionTime := now }
      let s1 := { s with zones := s.zones.set i z1 }
      z.relayPins.foldl (fun acc pin => activateRelay acc pin now) s1
    else
      if z.active && decide (timeoutMs z.timeout ≤ now - z.lastDetectionTime) then
        let s1 := { s with zones := s.zones.set i { z with active := false } }
        z.relayPins.foldl
          (fun acc pin =>
            if usedByOtherZone acc.zones z.id pin then acc
            else deactivateRelay acc pin) s1
      else s

/-- Detection loop of ZoneManager::update for one zone: did any detection
overlap it. -/
def detectedInZone (dets : List Detection) (z : Zone) (fw fh : Int) : Bool :=
  dets.any (fun d => checkOverlap d z fw fh)

/-- One iteration of the zone loop in ZoneManager::update: bump statistics on
a hit (the source breaks after the first overlapping detection, so counts rise
by one), then run updateZoneState. -/
def updateAtIndex (s : ZMState) (i : Nat) (dets : List Detection) (fw fh : Int)
    (now : Nat) : ZMState :=
  match s.zones.get? i with
  | none => s
  | some z =>
    let det := detectedInZone dets z fw fh
    let s1 :=
      if det then
        { s with totalDetections := s.totalDetections + 1,
                 zoneDetectionCounts :=
                   s.zoneDetectionCounts.set i
                     (s.zoneDetectionCounts.getD i 0 + 1) }
      else s
    updateZoneState s1 i det now

/-- ZoneManager::update. -/
def update (s : ZMState) (dets : List Detection) (fw fh : Int) (now : Nat) : ZMState :=
  (List.range s.zones.length).foldl
    (fun acc i => updateAtIndex acc i dets fw fh now) s

/-- OR over all zones referencing a pin of their active flags. -/
def zonesOr (zones : List Zone) (pin : Int) : Bool :=
  zones.any (fun z => z.active && z.relayPins.contains pin)

/-- The shared-relay invariant: every known relay record is ON exactly when
some active zone references its pin. -/
def relayInvariant (s : ZMState) : Prop :=
  ∀ r ∈ s.relayStates, r.active = zonesOr s.zones r.pin

instance : DecidablePred relayInvariant := fun s => by
  unfold relayInvariant; infer_instance

/-- No two relay records share a pin (maintained by initializeRelayState in
the source). -/
def relayPinsNodup (s : ZMState) : Prop :=
  (s.relayStates.map (fun r => r.pin)).Nodup

instance : DecidablePred relayPinsNodup := fun s => by
  unfold relayPinsNodup; infer_instance

/-- No two zones share an id. -/
def zoneIdsNodup (s : ZMState) : Prop :=
  (s.zones.map (fun z => z.id)).Nodup

instance : DecidablePred zoneIdsNodup := fun s => by
  unfold zoneIdsNodup; infer_instance

/-- Well-formedness of an engine state: the shared-relay invariant holds and
the relay-pin and zone-id keys are duplicate-free (as ZoneManager::begin,
initializeRelayState and the web zone editor maintain). -/
def ZMWF (s : ZMState) : Prop :=
  relayInvariant s ∧ relayPinsNodup s ∧ zoneIdsNodup s

instance : DecidablePred ZMWF := fun s => by
  unfold ZMWF; infer_instance

/-- Subtraction of `size_t` values (64-bit unsigned wraparound), as in
`bufferPos - strlen(boundary)` in MJPEGStream::findBoundaryInBuffer. -/
def sizeTsub (a b : Nat) : Nat :=
  (2 ^ 64 + a - b) % 2 ^ 64

/-- Window comparison `memcmp(&buffer[i], token, token.length) == 0`.  Bytes
beyond the end of the modelled buffer are junk the C code should never touch;
the model reports no match for such windows. -/
def matchAt (buf : List Nat) (i : Nat) (token : List Nat) : Bool :=
  (buf.drop i).take token.length == token

/-- Linear scan for `token` starting at index `i`, running at most `fuel`
iterations (one per loop iteration of the C scan). -/
def scanFrom (buf token : List Nat) (i fuel : Nat) : Option Nat :=
  match fuel with
  | 0 => none
  | fuel + 1 =>
    if matchAt buf i token then some i else scanFrom buf token (i + 1) fuel

/-- Iteration bound of MJPEGStream::findBoundaryInBuffer —
`bufferPos - strlen(boundary)` computed in `size_t` arithmetic. -/
def findBoundaryScanBound (bufLen tokLen : Nat) : Nat :=
  sizeTsub bufLen tokLen

/-- MJPEGStream::findBoundaryInBuffer. -/
def findBoundaryInBuffer (buf token : List Nat) : Option Nat :=
  scanFrom buf token 0 (findBoundaryScanBound buf.length token.length)

/-- CRLFCRLF, the blank-line separator terminating the part headers. -/
def crlfcrlf : List Nat := [13, 10, 13, 10]

/-- The end-of-headers scan of MJPEGStream::extractFrame: from `i`, while
`i < bufferPos - 3` (int arithmetic, rendered as `i + 3 < bufLen`), look for
the CRLFCRLF blank line; on a hit return the position just after it. -/
def scanHeaderEnd (buf : List Nat) (i fuel : Nat) : Option Nat :=
  match fuel with
  | 0 => none
  | fuel + 1 =>
    if i + 3 < buf.length then
      if matchAt buf i crlfcrlf then some (i + 4)
      else scanHeaderEnd buf (i + 1) fuel
    else none

/-- The next-boundary scan of MJPEGStream::extractFrame: from `i`, while
`i < bufferPos - strlen(boundary)` (int arithmetic, rendered as
`i + tokLen < bufLen`), look for the boundary token. -/
def scanToken (buf token : List Nat) (i fuel : Nat) : Option Nat :=
  match fuel with
  | 0 => none
  | fuel + 1 =>
    if i + token.length < buf.length then
      if matchAt buf i token then some i else scanToken buf token (i + 1) fuel
    else none

/-- Session state of MJPEGStream in multipart (boundary) mode.  `buffer`
holds the `bufferPos` valid bytes of the accumulation buffer; `pending` the
bytes the transport has available but not yet delivered; the transport itself
is modelled as staying connected. -/
structure StreamState where
  buffer : List Nat
  pending : List Nat
  boundary : List Nat
  frameCount : Nat
  connected : Bool
  deriving Repr, DecidableEq

/-- MJPEGStream::readMoreData.  With no byte available it reports success
exactly when some data is buffered; with the buffer full it drops the older
half (`memmove` keeping the last `bufferPos / 2` bytes) before reading; reads
deliver as much as fits. -/
def readMoreData (s : StreamState) : StreamState × Bool :=
  if s.pending.isEmpty then (s, decide (0 < s.buffer.length))
  else
    let spaceLeft := MJPEG_BUFFER_SIZE - s.buffer.length
    let toRead := min s.pending.length spaceLeft
    if toRead = 0 then
      let keep := s.buffer.length / 2
      let buf1 := s.buffer.drop (s.buffer.length - keep)
      let toRead1 := min s.pending.length (MJPEG_BUFFER_SIZE - keep)
      ({ s with buffer := buf1 ++ s.pending.take toRead1,
                pending := s.pending.drop toRead1 },
       decide (0 < toRead1))
    else
      ({ s with buffer := s.buffer ++ s.pending.take toRead,
                pending := s.pending.drop toRead },
       decide (0 < toRead))

/-- The `readMoreData / return false / continue` pattern of
MJPEGStream::extractFrame: `Sum.inl` continues the loop, `Sum.inr` returns
from the function (payload `none` is C `return false`). -/
def needMore (s : StreamState) : StreamState ⊕ (StreamState × Option (List Nat)) :=
  let r := readMoreData s
  if r.2 then Sum.inl r.1 else Sum.inr (r.1, none)

/-- Parsing part of one iteration of the `while(true)` loop of
MJPEGStream::extractFrame (multipart branch): find a boundary, skip the part
headers, find the next boundary, and either emit the frame in between
(compacting the buffer by sliding the tail to the front) or discard and
resynchronize. -/
def parsePhase (s : StreamState) : StreamState ⊕ (StreamState × Option (List Nat)) :=
  match findBoundaryInBuffer s.buffer s.boundary with
  | none => needMore s
  | some boundaryPos =>
    match scanHeaderEnd s.buffer (boundaryPos + s.boundary.length) (s.buffer.length + 1) with
    | none => needMore s
    | some searchPos =>
      if s.buffer.length ≤ searchPos + 3 then needMore s
      else
        let jpegStart := searchPos
        match scanToken s.buffer s.boundary jpegStart (s.buffer.length + 1) with
        | none =>
          if MJPEG_BUFFER_SIZE - 10000 < s.buffer.length - jpegStart then
            Sum.inl { s with buffer := s.buffer.drop jpegStart }
          else needMore s
        | some nextBoundary =>
          let jpegSize := nextBoundary - jpegStart
          if 0 < jpegSize ∧ jpegSize < MJPEG_BUFFER_SIZE then
            Sum.inr ({ s with buffer := s.buffer.drop nextBoundary,
                              frameCount := s.frameCount + 1 },
                     some ((s.buffer.drop jpegStart).take jpegSize))
          else Sum.inl { s with buffer := s.buffer.drop nextBoundary }

/-- One full iteration of the extractFrame loop: top it up when fewer than
1024 bytes are buffered, then parse. -/
def extractIter (s : StreamState) : StreamState ⊕ (StreamState × Option (List Nat)) :=
  if s.buffer.length < 1024 then
    let r := readMoreData s
    if r.2 then parsePhase r.1 else Sum.inr (r.1, none)
  else parsePhase s

/-- MJPEGStream::extractFrame, multipart branch: iterate `extractIter` for at
most `fuel` loop iterations; `none` means the loop is still running
(the C loop has no iteration bound). -/
def extractFrame (s : StreamState) (fuel : Nat) : Option (StreamState × Option (List Nat)) :=
  match fuel with
  | 0 => none
  | fuel + 1 =>
    match extractIter s with
    | Sum.inl s1 => extractFrame s1 fuel
    | Sum.inr r => some r

/-- MJPEGStream::fetchFrame (multipart mode). -/
def fetchFrame (s : StreamState) (fuel : Nat) : Option (StreamState × Option (List Nat)) :=
  if s.connected then extractFrame s fuel else some (s, none)

/-- A multipart part: its header block (the bytes between the boundary token
and the blank-line separator) and its frame payload. -/
structure MPart where
  hdr : List Nat
  frame : List Nat
  deriving Repr, DecidableEq

/-- Closing delimiter after the final boundary token: "--" CRLF. -/
def streamEpilogue : List Nat := [45, 45, 13, 10]

/-- Serialized form of one part: boundary, headers, blank line, frame. -/
def partBytes (b : List Nat) (p : MPart) : List Nat :=
  b ++ p.hdr ++ crlfcrlf ++ p.frame

/-- The byte stream of a well-formed multipart body: the parts in order, then
the final boundary with the closing delimiter. -/
def streamBytes (b : List Nat) (ps : List MPart) : List Nat :=
  (ps.map (partBytes b)).flatten ++ b ++ streamEpilogue

/-- Well-formedness of a part with respect to boundary `b`: the frame is
nonempty; the blank line ending the headers is the first CRLFCRLF reachable
from the header start; and the boundary token does not occur inside the frame
(its first occurrence after the frame start is the one that ends it). -/
def PartWF (b : List Nat) (p : MPart) : Prop :=
  p.frame ≠ [] ∧
  (∀ j < p.hdr.length, matchAt (p.hdr ++ crlfcrlf) j crlfcrlf = false) ∧
  (∀ j < p.frame.length, matchAt (p.frame ++ b) j b = false)

instance : ∀ b p, Decidable (PartWF b p) := fun b p => by
  unfold PartWF; infer_instance

/-- Well-formedness of a whole multipart stream: nonempty boundary token,
well-formed parts, and a body that fits the fixed accumulation buffer. -/
def StreamWF (b : List Nat) (ps : List MPart) : Prop :=
  b ≠ [] ∧ (∀ p ∈ ps, PartWF b p) ∧
  (streamBytes b ps).length ≤ MJPEG_BUFFER_SIZE

instance : ∀ b ps, Decidable (StreamWF b ps) := fun b ps => by
  unfold StreamWF; infer_instance

/-- Session state right after MJPEGStream::connectToStream succeeded on a
multipart response: empty accumulation buffer, whole body still to be read. -/
def initStream (b : List Nat) (ps : List MPart) : StreamState :=
  ⟨[], streamBytes b ps, b, 0, true⟩

/-- Iterated fetchFrame: `n` successive calls, collecting the returned
frames; fails if any call fails or diverges. -/
def fetchMany (s : StreamState) (n fuel : Nat) : Option (List (List Nat) × StreamState) :=
  match n with
  | 0 => some ([], s)
  | n + 1 =>
    match fetchFrame s fuel with
    | some (s1, some f) =>
      match fetchMany s1 n fuel with
      | some (fs, s2) => some (f :: fs, s2)
      | none => none
    | _ => none

/-- State of the variables driving `loop()` in smartswitch.ino that matter
for the watchdog: WiFi status, camera-session status, the `wasConnected`
static, the two millisecond timestamps, the `autoRelayControl` setting, and
the zone-manager state. -/
structure LoopState where
  wifiConnected : Bool
  streamConnected : Bool
  wasConnected : Bool
  lastFrameTime : Nat
  lastErrorLog : Nat
  autoRelayControl : Bool
  zm : ZMState
  deriving Repr, DecidableEq

/-- One pass of `loop()` in smartswitch.ino.  `now` is the `millis()` reading
for this tick; `fetchOk` is the outcome of `mjpegStream.fetchFrame`, and
`dets` the detections the motion detector produced from the fetched frame.
Statistics printing and the WebSocket broadcast have no effect on this state
and are omitted; the early WiFi-reconnect return leaves the state unchanged. -/
def loopTick (st : LoopState) (now : Nat) (fetchOk : Bool) (dets : List Detection) :
    LoopState :=
  if !st.wifiConnected then st
  else if !st.streamConnected then { st with wasConnected := false }
  else
    let st1 :=
      if !st.wasConnected then { st with lastFrameTime := now, wasConnected := true }
      else st
    if WATCHDOG_TIMEOUT < now - st1.lastFrameTime then
      { st1 with zm := disableAllRelays st1.zm, streamConnected := false }
    else if fetchOk then
      { st1 with lastFrameTime := now,
                 zm := if st1.autoRelayControl then update st1.zm dets 640 480 now
                       else st1.zm }
    else
      if 5000 < now - st1.lastErrorLog then
        { st1 with lastErrorLog := now, streamConnected := false }
      else st1

/-- Projection of the relay records to (pin, logical state) pairs, the data
the shared-relay invariant talks about. -/
def relayActiveMap (s : ZMState) : List (Int × Bool) :=
  s.relayStates.map (fun r => (r.pin, r.active))

/-! ### Helper lemmas about relay bookkeeping -/

theorem applyToPin_map_pin (rs : List RelayState) (pin : Int)
    (f : RelayState → RelayState) (hf : ∀ r, (f r).pin = r.pin) :
    (applyToPin rs pin f).map (fun r => r.pin) = rs.map (fun r => r.pin) := by
  induction rs with
  | nil => rfl
  | cons r rest ih =>
    simp only [applyToPin]
    by_cases h : r.pin == pin
    · simp [h, hf]
    · simp [h, ih]

theorem activateRelay_zones (s : ZMState) (pin : Int) (now : Nat) :
    (activateRelay s pin now).zones = s.zones := by
  unfold activateRelay
  cases h : findRelay s.relayStates pin with
  | none => rfl
  | some st => by_cases ha : st.active <;> simp [ha]

theorem deactivateRelay_zones (s : ZMState) (pin : Int) :
    (deactivateRelay s pin).zones = s.zones := by
  unfold deactivateRelay
  cases h : findRelay s.relayStates pin with
  | none => rfl
  | some st => by_cases ha : st.active <;> simp [ha]

theorem activateRelay_pins (s : ZMState) (pin : Int) (now : Nat) :
    (activateRelay s pin now).relayStates.map (fun r => r.pin) =
      s.relayStates.map (fun r => r.pin) := by
  unfold activateRelay
  cases h : findRelay s.relayStates pin with
  | none => rfl
  | some st =>
    by_cases ha : st.active
    · simp [ha]
    · simp only [ha, if_neg, Bool.false_eq_true, not_false_iff]
      exact applyToPin_map_pin _ _ _ (fun r => rfl)

theorem deactivateRelay_pins (s : ZMState) (pin : Int) :
    (deactivateRelay s pin).relayStates.map (fun r => r.pin) =
      s.relayStates.map (fun r => r.pin) := by
  unfold deactivateRelay
  cases h : findRelay s.relayStates pin with
  | none => rfl
  | some st =>
    by_cases ha : st.active
    · simp only [ha, if_pos]
      exact applyToPin_map_pin _ _ _ (fun r => rfl)
    · simp [ha]

theorem findRelay_none_iff (rs : List RelayState) (pin : Int) :
    findRelay rs pin = none ↔ ∀ r ∈ rs, r.pin ≠ pin := by
  unfold findRelay
  rw [List.find?_eq_none]
  simp

theorem findRelay_unique (rs : List RelayState) (pin : Int) (st : RelayState)
    (hnd : (rs.map (fun r => r.pin)).Nodup)
    (hf : findRelay rs pin = some st) :
    ∀ r ∈ rs, r.pin = pin → r = st := by
  induction rs with
  | nil => unfold findRelay at hf; simp at hf
  | cons r0 rest ih =>
    unfold findRelay at hf
    rw [List.find?_cons] at hf
    simp only [List.map_cons, List.nodup_cons] at hnd
    by_cases h0 : r0.pin == pin
    · rw [h0] at hf
      obtain rfl : r0 = st := by injection hf
      intro r hr hpin
      rcases List.mem_cons.mp hr with rfl | hrest
      · rfl
      · exfalso
        apply hnd.1
        rw [List.mem_map]
        refine ⟨r, hrest, ?_⟩
        rw [hpin, eq_of_beq h0]
    · rw [Bool.not_eq_true] at h0
      rw [h0] at hf
      intro r hr hpin
      rcases List.mem_cons.mp hr with rfl | hrest
      · exact absurd hpin (by simpa using h0)
      · exact ih hnd.2 hf r hrest hpin

theorem applyToPin_map_of_nodup (rs : List RelayState) (pin : Int)
    (f : RelayState → RelayState) (proj : RelayState → Int × Bool)
    (hnd : (rs.map (fun r => r.pin)).Nodup) :
    (applyToPin rs pin f).map proj =
      rs.map (fun r => if r.pin == pin then proj (f r) else proj r) := by
  induction rs with
  | nil => rfl
  | cons r0 rest ih =>
    simp only [List.map_cons, List.nodup_cons] at hnd
    simp only [applyToPin]
    by_cases h0 : r0.pin == pin
    · rw [if_pos h0]
      simp only [List.map_cons, if_pos h0]
      congr 1
      have : ∀ r ∈ rest, (if r.pin == pin then proj (f r) else proj r) = proj r := by
        intro r hr
        rw [if_neg]
        intro hc
        apply hnd.1
        rw [List.mem_map]
        exact ⟨r, hr, by rw [eq_of_beq hc, eq_of_beq h0]⟩
      rw [List.map_congr_left this]
    · rw [if_neg h0]
      simp only [List.map_cons, if_neg h0]
      congr 1
      exact ih hnd.2

theorem activateRelay_activeMap (s : ZMState) (pin : Int) (now : Nat)
    (hnd : relayPinsNodup s) :
    relayActiveMap (activateRelay s pin now) =
      (relayActiveMap s).map (fun pa => (pa.1, pa.2 || (pa.1 == pin))) := by
  unfold relayPinsNodup at hnd
  unfold relayActiveMap activateRelay
  rw [List.map_map]
  cases hfind : findRelay s.relayStates pin with
  | none =>
    rw [findRelay_none_iff] at hfind
    simp only
    apply (List.map_congr_left ?_).symm
    intro r hr
    have : (r.pin == pin) = false := by
      simpa using hfind r hr
    simp [Function.comp, this]
  | some st =>
    by_cases ha : st.active
    · simp only [ha, if_true]
      apply (List.map_congr_left ?_).symm
      intro r hr
      by_cases hp : r.pin == pin
      · have : r = st := findRelay_unique _ _ _ hnd hfind r hr (eq_of_beq hp)
        simp [Function.comp, hp, this, ha]
      · simp only [Bool.not_eq_true] at hp
        simp [Function.comp, hp]
    · simp only [ha, if_false, Bool.false_eq_true]
      rw [applyToPin_map_of_nodup _ _ _ _ hnd]
      apply List.map_congr_left
      intro r hr
      by_cases hp : r.pin == pin
      · simp [Function.comp, hp]
      · simp only [Bool.not_eq_true] at hp
        simp [Function.comp, hp]

theorem deactivateRelay_activeMap (s : ZMState) (pin : Int)
    (hnd : relayPinsNodup s) :
    relayActiveMap (deactivateRelay s pin) =
      (relayActiveMap s).map (fun pa => (pa.1, pa.2 && !(pa.1 == pin))) := by
  unfold relayPinsNodup at hnd
  unfold relayActiveMap deactivateRelay
  rw [List.map_map]
  cases hfind : findRelay s.relayStates pin with
  | none =>
    rw [findRelay_none_iff] at hfind
    simp only
    apply (List.map_congr_left ?_).symm
    intro r hr
    have : (r.pin == pin) = false := by
      simpa using hfind r hr
    simp [Function.comp, this]
  | some st =>
    by_cases ha : st.active
    · simp only [ha, if_true]
      rw [applyToPin_map_of_nodup _ _ _ _ hnd]
      apply List.map_congr_left
      intro r hr
      by_cases hp : r.pin == pin
      · simp [Function.comp, hp]
      · simp only [Bool.not_eq_true] at hp
        simp [Function.comp, hp]
    · simp only [ha, if_false, Bool.false_eq_true]
      apply (List.map_congr_left ?_).symm
      intro r hr
      by_cases hp : r.pin == pin
      · have : r = st := findRelay_unique _ _ _ hnd hfind r hr (eq_of_beq hp)
        simp [Function.comp, hp, this, ha]
      · simp only [Bool.not_eq_true] at hp
        simp [Function.comp, hp]

theorem contains_cons_int (a x : Int) (l : List Int) :
    (a :: l).contains x = (x == a || l.contains x) := rfl

theorem foldActivate_zones (pins : List Int) (s : ZMState) (now : Nat) :
    (pins.foldl (fun a p => activateRelay a p now) s).zones = s.zones := by
  induction pins generalizing s with
  | nil => rfl
  | cons p ps ih => rw [List.foldl_cons, ih, activateRelay_zones]

theorem foldActivate_pins (pins : List Int) (s : ZMState) (now : Nat) :
    (pins.foldl (fun a p => activateRelay a p now) s).relayStates.map (fun r => r.pin) =
      s.relayStates.map (fun r => r.pin) := by
  induction pins generalizing s with
  | nil => rfl
  | cons p ps ih => rw [List.foldl_cons, ih, activateRelay_pins]

theorem foldActivate_activeMap (pins : List Int) (s : ZMState) (now : Nat)
    (hnd : relayPinsNodup s) :
    relayActiveMap (pins.foldl (fun a p => activateRelay a p now) s) =
      (relayActiveMap s).map (fun pa => (pa.1, pa.2 || pins.contains pa.1)) := by
  induction pins generalizing s with
  | nil =>
    simp [List.contains]
  | cons p ps ih =>
    rw [List.foldl_cons]
    have hnd1 : relayPinsNodup (activateRelay s p now) := by
      unfold relayPinsNodup
      rw [activateRelay_pins]
      exact hnd
    rw [ih _ hnd1, activateRelay_activeMap _ _ _ hnd, List.map_map]
    apply List.map_congr_left
    intro pa _
    simp only [Function.comp, contains_cons_int]
    rcases pa with ⟨p1, a1⟩
    simp only
    cases a1 <;> cases h1 : p1 == p <;> simp

theorem condDeact_zones (pins : List Int) (s : ZMState) (zid : Int) :
    (pins.foldl
      (fun acc pin =>
        if usedByOtherZone acc.zones zid pin then acc else deactivateRelay acc pin)
      s).zones = s.zones := by
  induction pins generalizing s with
  | nil => rfl
  | cons p ps ih =>
    rw [List.foldl_cons]
    by_cases h : usedByOtherZone s.zones zid p
    · rw [if_pos h, ih]
    · rw [if_neg h, ih, deactivateRelay_zones]

theorem condDeact_pins (pins : List Int) (s : ZMState) (zid : Int) :
    (pins.foldl
      (fun acc pin =>
        if usedByOtherZone acc.zones zid pin then acc else deactivateRelay acc pin)
      s).relayStates.map (fun r => r.pin) = s.relayStates.map (fun r => r.pin) := by
  induction pins generalizing s with
  | nil => rfl
  | cons p ps ih =>
    rw [List.foldl_cons]
    by_cases h : usedByOtherZone s.zones zid p
    · rw [if_pos h, ih]
    · rw [if_neg h, ih, deactivateRelay_pins]

theorem condDeact_activeMap (pins : List Int) (s : ZMState) (zid : Int)
    (hnd : relayPinsNodup s) :
    relayActiveMap (pins.foldl
      (fun acc pin =>
        if usedByOtherZone acc.zones zid pin then acc else deactivateRelay acc pin)
      s) =
      (relayActiveMap s).map
        (fun pa => (pa.1,
          pa.2 && !(pins.contains pa.1 && !usedByOtherZone s.zones zid pa.1))) := by
  induction pins generalizing s with
  | nil =>
    simp [List.contains]
  | cons p ps ih =>
    rw [List.foldl_cons]
    by_cases h : usedByOtherZone s.zones zid p
    · rw [if_pos h, ih _ hnd]
      apply List.map_congr_left
      intro pa _
      rcases pa with ⟨p1, a1⟩
      simp only [contains_cons_int]
      by_cases h1 : p1 == p
      · have hu : usedByOtherZone s.zones zid p1 = true := by
          rw [eq_of_beq h1]; exact h
        simp [h1, hu]
      · simp only [Bool.not_eq_true] at h1
        simp [h1]
    · rw [if_neg h]
      have hnd1 : relayPinsNodup (deactivateRelay s p) := by
        unfold relayPinsNodup
        rw [deactivateRelay_pins]
        exact hnd
      rw [ih _ hnd1, deactivateRelay_zones, deactivateRelay_activeMap _ _ hnd,
        List.map_map]
      apply List.map_congr_left
      intro pa _
      rcases pa with ⟨p1, a1⟩
      simp only [Function.comp, contains_cons_int]
      by_cases h1 : p1 == p
      · have hu : usedByOtherZone s.zones zid p1 = false := by
          rw [eq_of_beq h1]; simpa using h
        simp [h1, hu]
      · simp only [Bool.not_eq_true] at h1
        cases a1 <;> simp [h1]

theorem foldDeact_zones (pins : List Int) (s : ZMState) :
    (pins.foldl (fun a p => deactivateRelay a p) s).zones = s.zones := by
  induction pins generalizing s with
  | nil => rfl
  | cons p ps ih => rw [List.foldl_cons, ih, deactivateRelay_zones]

theorem foldDeact_pins (pins : List Int) (s : ZMState) :
    (pins.foldl (fun a p => deactivateRelay a p) s).relayStates.map (fun r => r.pin) =
      s.relayStates.map (fun r => r.pin) := by
  induction pins generalizing s with
  | nil => rfl
  | cons p ps ih => rw [List.foldl_cons, ih, deactivateRelay_pins]

theorem foldDeact_activeMap (pins : List Int) (s : ZMState)
    (hnd : relayPinsNodup s) :
    relayActiveMap (pins.foldl (fun a p => deactivateRelay a p) s) =
      (relayActiveMap s).map (fun pa => (pa.1, pa.2 && !pins.contains pa.1)) := by
  induction pins generalizing s with
  | nil =>
    simp [List.contains]
  | cons p ps ih =>
    rw [List.foldl_cons]
    have hnd1 : relayPinsNodup (deactivateRelay s p) := by
      unfold relayPinsNodup
      rw [deactivateRelay_pins]
      exact hnd
    rw [ih _ hnd1, deactivateRelay_activeMap _ _ hnd, List.map_map]
    apply List.map_congr_left
    intro pa _
    rcases pa with ⟨p1, a1⟩
    simp only [Function.comp, contains_cons_int]
    cases a1 <;> cases h1 : p1 == p <;> simp

theorem get?_some_lt {l : List Zone} {i : Nat} {z : Zone} (h : l.get? i = some z) :
    i < l.length := by
  rw [List.get?_eq_getElem?, List.getElem?_eq_some_iff] at h
  exact h.1

theorem get?_some_getElem {l : List Zone} {i : Nat} {z : Zone} (h : l.get? i = some z)
    (h2 : i < l.length) : l[i] = z := by
  rw [List.get?_eq_getElem?] at h
  exact List.getElem_eq_iff.mpr h

theorem relayInvariant_iff_activeMap (s : ZMState) :
    relayInvariant s ↔ ∀ pa ∈ relayActiveMap s, pa.2 = zonesOr s.zones pa.1 := by
  unfold relayInvariant relayActiveMap
  constructor
  · intro h pa hpa
    rw [List.mem_map] at hpa
    obtain ⟨r, hr, rfl⟩ := hpa
    exact h r hr
  · intro h r hr
    exact h (r.pin, r.active) (List.mem_map.mpr ⟨r, hr, rfl⟩)

theorem any_decomp (zs : List Zone) (i : Nat) (h : i < zs.length) (f : Zone → Bool) :
    zs.any f = ((zs.take i).any f || (f zs[i] || (zs.drop (i + 1)).any f)) := by
  conv_lhs => rw [← List.take_append_drop i zs, List.drop_eq_getElem_cons h]
  rw [List.any_append, List.any_cons]

theorem any_set_decomp (zs : List Zone) (i : Nat) (h : i < zs.length) (z0 : Zone)
    (f : Zone → Bool) :
    (zs.set i z0).any f =
      ((zs.take i).any f || (f z0 || (zs.drop (i + 1)).any f)) := by
  rw [List.set_eq_take_cons_drop z0 h]
  simp [List.any_append]

theorem notMem_take_drop_id (zs : List Zone) (i : Nat) (h : i < zs.length)
    (hnd : (zs.map (fun z => z.id)).Nodup) :
    ∀ oz, (oz ∈ zs.take i ∨ oz ∈ zs.drop (i + 1)) → oz.id ≠ zs[i].id := by
  have hzs : zs = zs.take i ++ zs[i] :: zs.drop (i + 1) := by
    conv_lhs => rw [← List.take_append_drop i zs, List.drop_eq_getElem_cons h]
  rw [hzs] at hnd
  simp only [List.map_append, List.map_cons, List.nodup_append, List.nodup_cons] at hnd
  intro oz hoz
  rcases hoz with hmem | hmem
  · intro hc
    have h1 : zs[i].id ∈ (zs.take i).map (fun z => z.id) :=
      List.mem_map.mpr ⟨oz, hmem, hc⟩
    exact hnd.2.2 h1 (List.mem_cons_self _ _)
  · intro hc
    exact hnd.2.1.1 (List.mem_map.mpr ⟨oz, hmem, hc⟩)

theorem any_congr' (l : List Zone) (p q : Zone → Bool) (h : ∀ a ∈ l, p a = q a) :
    l.any p = l.any q := by
  induction l with
  | nil => rfl
  | cons a as ih =>
    rw [List.any_cons, List.any_cons, h a (List.mem_cons_self a as),
      ih (fun b hb => h b (List.mem_cons_of_mem a hb))]

theorem set_self {α : Type} (l : List α) (i : Nat) (a : α) (h : l.get? i = some a) :
    l.set i a = l := by
  induction l generalizing i with
  | nil => rfl
  | cons x xs ih =>
    cases i with
    | zero =>
      simp only [List.get?] at h
      injection h with h
      rw [h]
      rfl
    | succ j =>
      simp only [List.get?] at h
      rw [List.set_cons_succ, ih j h]

theorem usedByOtherZone_set (zs : List Zone) (i : Nat) (h : i < zs.length) (z0 : Zone)
    (hz0 : z0.id = zs[i].id) (hnd : (zs.map (fun z => z.id)).Nodup) (pin : Int) :
    usedByOtherZone (zs.set i z0) zs[i].id pin =
      ((zs.take i).any (fun zz => zz.active && zz.relayPins.contains pin) ||
        (zs.drop (i + 1)).any (fun zz => zz.active && zz.relayPins.contains pin)) := by
  unfold usedByOtherZone
  rw [any_set_decomp zs i h]
  have hmid : (z0.id != zs[i].id && z0.active && z0.relayPins.contains pin) = false := by
    simp [hz0]
  rw [hmid]
  have htake : (zs.take i).any
      (fun oz => oz.id != zs[i].id && oz.active && oz.relayPins.contains pin) =
      (zs.take i).any (fun zz => zz.active && zz.relayPins.contains pin) := by
    apply any_congr'
    intro a ha
    have hne : a.id ≠ zs[i].id := notMem_take_drop_id zs i h hnd a (Or.inl ha)
    have hb : (a.id != zs[i].id) = true := by simpa using hne
    rw [hb, Bool.true_and]
  have hdrop : (zs.drop (i + 1)).any
      (fun oz => oz.id != zs[i].id && oz.active && oz.relayPins.contains pin) =
      (zs.drop (i + 1)).any (fun zz => zz.active && zz.relayPins.contains pin) := by
    apply any_congr'
    intro a ha
    have hne : a.id ≠ zs[i].id := notMem_take_drop_id zs i h hnd a (Or.inr ha)
    have hb : (a.id != zs[i].id) = true := by simpa using hne
    rw [hb, Bool.true_and]
  rw [htake, hdrop]
  simp

theorem bool_or_detected (A B C d x : Bool) (hx : x = (A || (d && C || B))) :
    (x || C) = (A || (true && C || B)) := by
  subst hx
  cases A <;> cases B <;> cases C <;> cases d <;> rfl

theorem bool_and_timeout (A B C x : Bool) (hx : x = (A || (true && C || B))) :
    (x && !(C && !(A || B))) = (A || (false && C || B)) := by
  subst hx
  cases A <;> cases B <;> cases C <;> rfl

theorem updateZoneState_eq_none (s : ZMState) (i : Nat) (detected : Bool) (now : Nat)
    (hget : s.zones.get? i = none) : updateZoneState s i detected now = s := by
  unfold updateZoneState
  rw [hget]

theorem updateZoneState_eq_detected (s : ZMState) (i : Nat) (z : Zone) (now : Nat)
    (hget : s.zones.get? i = some z) :
    updateZoneState s i true now =
      z.relayPins.foldl (fun acc pin => activateRelay acc pin now)
        { s with
          zones := s.zones.set i { z with active := true, lastDetectionTime := now } } := by
  unfold updateZoneState
  rw [hget]
  rfl

theorem updateZoneState_eq_timeout (s : ZMState) (i : Nat) (z : Zone) (now : Nat)
    (hget : s.zones.get? i = some z)
    (hact : (z.active && decide (timeoutMs z.timeout ≤ now - z.lastDetectionTime)) = true) :
    updateZoneState s i false now =
      z.relayPins.foldl
        (fun acc pin =>
          if usedByOtherZone acc.zones z.id pin then acc else deactivateRelay acc pin)
        { s with zones := s.zones.set i { z with active := false } } := by
  unfold updateZoneState
  rw [hget]
  simp [hact]

theorem updateZoneState_eq_idle (s : ZMState) (i : Nat) (z : Zone) (now : Nat)
    (hget : s.zones.get? i = some z)
    (hact : (z.active && decide (timeoutMs z.timeout ≤ now - z.lastDetectionTime)) = false) :
    updateZoneState s i false now = s := by
  unfold updateZoneState
  rw [hget]
  simp [hact]

theorem updateZoneState_wf (s : ZMState) (i : Nat) (detected : Bool) (now : Nat)
    (hwf : ZMWF s) :
    ZMWF (updateZoneState s i detected now) ∧
    (updateZoneState s i detected now).zones.map (fun z => z.id) =
      s.zones.map (fun z => z.id) ∧
    (updateZoneState s i detected now).relayStates.map (fun r => r.pin) =
      s.relayStates.map (fun r => r.pin) := by
  obtain ⟨hinv, hnd, hid⟩ := hwf
  cases hget : s.zones.get? i with
  | none =>
    rw [updateZoneState_eq_none s i detected now hget]
    exact ⟨⟨hinv, hnd, hid⟩, rfl, rfl⟩
  | some z =>
    have hlt : i < s.zones.length := get?_some_lt hget
    have hz : s.zones[i] = z := get?_some_getElem hget hlt
    have hidnd : (s.zones.map (fun zz => zz.id)).Nodup := hid
    cases detected with
    | true =>
      rw [updateZoneState_eq_detected s i z now hget]
      set z1 : Zone := { z with active := true, lastDetectionTime := now } with hz1
      set s1 : ZMState := { s with zones := s.zones.set i z1 } with hs1
      have hz2 : (z.relayPins.foldl (fun acc pin => activateRelay acc pin now) s1).zones
          = s.zones.set i z1 := foldActivate_zones _ _ _
      have hp2 : (z.relayPins.foldl (fun acc pin => activateRelay acc pin now)
          s1).relayStates.map (fun r => r.pin) = s.relayStates.map (fun r => r.pin) :=
        foldActivate_pins _ _ _
      have hzmap : (s.zones.set i z1).map (fun zz => zz.id) =
          s.zones.map (fun zz => zz.id) := by
        rw [List.map_set]
        apply set_self
        rw [List.get?_map, hget]
        rfl
      have hnd1 : relayPinsNodup s1 := hnd
      refine ⟨⟨?_, ?_, ?_⟩, ?_, ?_⟩
      · rw [relayInvariant_iff_activeMap]
        intro pa hpa
        rw [foldActivate_activeMap _ _ _ hnd1] at hpa
        have hmap1 : relayActiveMap s1 = relayActiveMap s := rfl
        rw [hmap1] at hpa
        obtain ⟨pb, hpb, rfl⟩ := List.mem_map.mp hpa
        have hpb2 : pb.2 = zonesOr s.zones pb.1 :=
          (relayInvariant_iff_activeMap s).mp hinv pb hpb
        show (pb.2 || z.relayPins.contains pb.1) = zonesOr _ pb.1
        rw [hz2]
        unfold zonesOr at hpb2 ⊢
        rw [any_set_decomp _ _ hlt]
        rw [any_decomp _ _ hlt, hz] at hpb2
        exact bool_or_detected _ _ _ _ _ hpb2
      · unfold relayPinsNodup
        rw [hp2]
        exact hnd
      · unfold zoneIdsNodup
        rw [hz2, hzmap]
        exact hid
      · rw [hz2, hzmap]
      · exact hp2
    | false =>
      by_cases hact : (z.active && decide (timeoutMs z.timeout ≤ now - z.lastDetectionTime)) = true
      · rw [updateZoneState_eq_timeout s i z now hget hact]
        have hzactive : z.active = true := (Bool.and_eq_true_iff.mp hact).1
        set z2 : Zone := { z with active := false } with hz2def
        set s1 : ZMState := { s with zones := s.zones.set i z2 } with hs1
        have hz2 : (z.relayPins.foldl (fun acc pin =>
            if usedByOtherZone acc.zones z.id pin then acc else deactivateRelay acc pin)
            s1).zones = s.zones.set i z2 := condDeact_zones _ _ _
        have hp2 : (z.relayPins.foldl (fun acc pin =>
            if usedByOtherZone acc.zones z.id pin then acc else deactivateRelay acc pin)
            s1).relayStates.map (fun r => r.pin) = s.relayStates.map (fun r => r.pin) :=
          condDeact_pins _ _ _
        have hzmap : (s.zones.set i z2).map (fun zz => zz.id) =
            s.zones.map (fun zz => zz.id) := by
          rw [List.map_set]
          apply set_self
          rw [List.get?_map, hget]
          rfl
        have hnd1 : relayPinsNodup s1 := hnd
        refine ⟨⟨?_, ?_, ?_⟩, ?_, ?_⟩
        · rw [relayInvariant_iff_activeMap]
          intro pa hpa
          rw [condDeact_activeMap _ _ _ hnd1] at hpa
          have hmap1 : relayActiveMap s1 = relayActiveMap s := rfl
          rw [hmap1] at hpa
          obtain ⟨pb, hpb, rfl⟩ := List.mem_map.mp hpa
          have hpb2 : pb.2 = zonesOr s.zones pb.1 :=
            (relayInvariant_iff_activeMap s).mp hinv pb hpb
          have hu : usedByOtherZone s1.zones z.id pb.1 =
              ((s.zones.take i).any (fun zz => zz.active && zz.relayPins.contains pb.1) ||
                (s.zones.drop (i + 1)).any
                  (fun zz => zz.active && zz.relayPins.contains pb.1)) := by
            have hthis := usedByOtherZone_set s.zones i hlt z2 (by rw [hz]) hidnd pb.1
            rw [hz] at hthis
            exact hthis
          show (pb.2 && !(z.relayPins.contains pb.1 &&
              !usedByOtherZone s1.zones z.id pb.1)) = zonesOr _ pb.1
          rw [hz2, hu]
          unfold zonesOr at hpb2 ⊢
          rw [any_set_decomp _ _ hlt]
          rw [any_decomp _ _ hlt, hz, hzactive] at hpb2
          exact bool_and_timeout _ _ _ _ hpb2
        · unfold relayPinsNodup
          rw [hp2]
          exact hnd
        · unfold zoneIdsNodup
          rw [hz2, hzmap]
          exact hid
        · rw [hz2, hzmap]
        · exact hp2
      · rw [Bool.not_eq_true] at hact
        rw [updateZoneState_eq_idle s i z now hget hact]
        exact ⟨⟨hinv, hnd, hid⟩, rfl, rfl⟩

theorem updateAtIndex_eq (s : ZMState) (i : Nat) (z : Zone) (dets : List Detection)
    (fw fh : Int) (now : Nat) (hget : s.zones.get? i = some z) :
    updateAtIndex s i dets fw fh now =
      updateZoneState
        (if detectedInZone dets z fw fh then
          { s with totalDetections := s.totalDetections + 1,
                   zoneDetectionCounts :=
                     s.zoneDetectionCounts.set i (s.zoneDetectionCounts.getD i 0 + 1) }
         else s)
        i (detectedInZone dets z fw fh) now := by
  unfold updateAtIndex
  rw [hget]

theorem updateAtIndex_eq_none (s : ZMState) (i : Nat) (dets : List Detection)
    (fw fh : Int) (now : Nat) (hget : s.zones.get? i = none) :
    updateAtIndex s i dets fw fh now = s := by
  unfold updateAtIndex
  rw [hget]

theorem updateAtIndex_wf (s : ZMState) (i : Nat) (dets : List Detection)
    (fw fh : Int) (now : Nat) (hwf : ZMWF s) :
    ZMWF (updateAtIndex s i dets fw fh now) ∧
    (updateAtIndex s i dets fw fh now).zones.map (fun z => z.id) =
      s.zones.map (fun z => z.id) ∧
    (updateAtIndex s i dets fw fh now).relayStates.map (fun r => r.pin) =
      s.relayStates.map (fun r => r.pin) := by
  cases hget : s.zones.get? i with
  | none =>
    rw [updateAtIndex_eq_none s i dets fw fh now hget]
    exact ⟨hwf, rfl, rfl⟩
  | some z =>
    rw [updateAtIndex_eq s i z dets fw fh now hget]
    by_cases hdet : detectedInZone dets z fw fh = true
    · rw [if_pos hdet]
      exact updateZoneState_wf _ i _ now hwf
    · rw [if_neg hdet]
      exact updateZoneState_wf _ i _ now hwf

theorem update_wf (s : ZMState) (dets : List Detection) (fw fh : Int) (now : Nat)
    (hwf : ZMWF s) : ZMWF (update s dets fw fh now) := by
  unfold update
  generalize List.range s.zones.length = l
  induction l generalizing s with
  | nil => exact hwf
  | cons j js ih =>
    rw [List.foldl_cons]
    exact ih _ (updateAtIndex_wf s j dets fw fh now hwf).1

theorem zonesOr_all_inactive (zs : List Zone) (pin : Int)
    (h : ∀ z ∈ zs, z.active = false) : zonesOr zs pin = false := by
  unfold zonesOr
  rw [List.any_eq_false]
  intro z hz
  simp [h z hz]

theorem disableAllRelays_wf (s : ZMState)
    (hnd : relayPinsNodup s) (hid : zoneIdsNodup s) :
    ZMWF (disableAllRelays s) := by
  refine ⟨?_, ?_, ?_⟩
  · intro r hr
    have hz : ∀ z ∈ (disableAllRelays s).zones, z.active = false := by
      intro z hzz
      have hz2 : z ∈ s.zones.map (fun z0 => { z0 with active := false }) := hzz
      simp only [List.mem_map] at hz2
      obtain ⟨z0, _, rfl⟩ := hz2
      rfl
    have hr2 : r ∈ s.relayStates.map (fun r0 => { r0 with active := false }) := hr
    simp only [List.mem_map] at hr2
    obtain ⟨r0, _, rfl⟩ := hr2
    rw [zonesOr_all_inactive _ _ hz]
  · unfold relayPinsNodup
    rw [show (disableAllRelays s).relayStates =
        s.relayStates.map (fun r => { r with active := false }) from rfl, List.map_map]
    exact hnd
  · unfold zoneIdsNodup
    rw [show (disableAllRelays s).zones =
        s.zones.map (fun z => { z with active := false }) from rfl, List.map_map]
    exact hid

theorem disableAllRelays_allOff (s : ZMState) :
    (∀ r ∈ (disableAllRelays s).relayStates, r.active = false) ∧
    (∀ z ∈ (disableAllRelays s).zones, z.active = false) := by
  constructor
  · intro r hr
    have hr2 : r ∈ s.relayStates.map (fun r0 => { r0 with active := false }) := hr
    simp only [List.mem_map] at hr2
    obtain ⟨r0, _, rfl⟩ := hr2
    rfl
  · intro z hz
    have hz2 : z ∈ s.zones.map (fun z0 => { z0 with active := false }) := hz
    simp only [List.mem_map] at hz2
    obtain ⟨z0, _, rfl⟩ := hz2
    rfl

theorem findRelay_applyToPin (rs : List RelayState) (pin : Int)
    (f : RelayState → RelayState) (hf : ∀ r, (f r).pin = r.pin) :
    findRelay (applyToPin rs pin f) pin = (findRelay rs pin).map f := by
  induction rs with
  | nil => rfl
  | cons r rest ih =>
    unfold applyToPin findRelay
    by_cases h : r.pin == pin
    · rw [if_pos h]
      rw [List.find?_cons, List.find?_cons]
      have h2 : ((f r).pin == pin) = true := by
        rw [hf r]; exact h
      rw [h2, h]
      rfl
    · simp only [Bool.not_eq_true] at h
      rw [if_neg (by simp [h])]
      rw [List.find?_cons, List.find?_cons, h]
      exact ih

theorem activateRelay_eq_found_inactive (s : ZMState) (pin : Int) (now : Nat)
    (st : RelayState) (hst : findRelay s.relayStates pin = some st)
    (hin : st.active = false) :
    activateRelay s pin now =
      { s with
        relayStates := applyToPin s.relayStates pin
          (fun r => { r with active := true, lastActivationTime := now,
                             activationCount := r.activationCount + 1 }),
        writes := s.writes ++ [(pin, true)] } := by
  unfold activateRelay
  rw [hst]
  simp [hin]

theorem activateRelay_eq_found_active (s : ZMState) (pin : Int) (now : Nat)
    (st : RelayState) (hst : findRelay s.relayStates pin = some st)
    (hact : st.active = true) :
    activateRelay s pin now = s := by
  unfold activateRelay
  rw [hst]
  simp [hact]

theorem deactivateRelay_eq_found_active (s : ZMState) (pin : Int)
    (st : RelayState) (hst : findRelay s.relayStates pin = some st)
    (hact : st.active = true) :
    deactivateRelay s pin =
      { s with
        relayStates := applyToPin s.relayStates pin (fun r => { r with active := false }),
        writes := s.writes ++ [(pin, false)] } := by
  unfold deactivateRelay
  rw [hst]
  simp [hact]

theorem deactivateRelay_eq_found_inactive (s : ZMState) (pin : Int)
    (st : RelayState) (hst : findRelay s.relayStates pin = some st)
    (hin : st.active = false) :
    deactivateRelay s pin = s := by
  unfold deactivateRelay
  rw [hst]
  simp [hin]

/-! ### Helper lemmas for the multipart stream parser -/

theorem windowEq (l1 l2 : List Nat) (j n : Nat) (h : j + n ≤ l1.length) :
    ((l1 ++ l2).drop j).take n = (l1.drop j).take n := by
  have h1 : j ≤ l1.length := le_trans (Nat.le_add_right j n) h
  rw [List.drop_append_of_le_length h1]
  have h2 : n ≤ (l1.drop j).length := by
    rw [List.length_drop]
    omega
  rw [List.take_append_of_le_length h2]

theorem matchAt_append_left (l1 l2 token : List Nat) (j : Nat)
    (h : j + token.length ≤ l1.length) :
    matchAt (l1 ++ l2) j token = matchAt l1 j token := by
  unfold matchAt
  rw [windowEq _ _ _ _ h]

theorem matchAt_self_prefix (token rest : List Nat) :
    matchAt (token ++ rest) 0 token = true := by
  unfold matchAt
  rw [List.drop_zero, List.take_append_of_le_length (le_refl _), List.take_length]
  exact beq_self_eq_true token

theorem matchAt_at_offset (pre token rest : List Nat) :
    matchAt (pre ++ token ++ rest) pre.length token = true := by
  unfold matchAt
  rw [List.append_assoc, List.drop_append_of_le_length (le_refl _),
    List.drop_length, List.nil_append,
    List.take_append_of_le_length (le_refl _), List.take_length]
  exact beq_self_eq_true token

theorem scanFrom_at_zero (buf token : List Nat) (fuel : Nat)
    (h : matchAt buf 0 token = true) (hf : 0 < fuel) :
    scanFrom buf token 0 fuel = some 0 := by
  cases fuel with
  | zero => omega
  | succ k =>
    unfold scanFrom
    rw [h]
    rfl

theorem scanHeaderEnd_found (buf : List Nat) (p : Nat)
    (hmatch : matchAt buf p crlfcrlf = true) (hp : p + 3 < buf.length) :
    ∀ fuel i, i ≤ p → p - i < fuel →
      (∀ j, i ≤ j → j < p → matchAt buf j crlfcrlf = false) →
      scanHeaderEnd buf i fuel = some (p + 4) := by
  intro fuel
  induction fuel with
  | zero => omega
  | succ k ih =>
    intro i hip hfuel hnone
    unfold scanHeaderEnd
    by_cases hi : i = p
    · subst hi
      rw [if_pos (by omega), hmatch]
      rfl
    · have hilt : i < p := lt_of_le_of_ne hip hi
      rw [if_pos (by omega), hnone i (le_refl i) hilt]
      exact ih (i + 1) (by omega) (by omega) (fun j hj1 hj2 => hnone j (by omega) hj2)

theorem scanToken_found (buf token : List Nat) (p : Nat)
    (hmatch : matchAt buf p token = true) (hp : p + token.length < buf.length) :
    ∀ fuel i, i ≤ p → p - i < fuel →
      (∀ j, i ≤ j → j < p → matchAt buf j token = false) →
      scanToken buf token i fuel = some p := by
  intro fuel
  induction fuel with
  | zero => omega
  | succ k ih =>
    intro i hip hfuel hnone
    unfold scanToken
    by_cases hi : i = p
    · subst hi
      rw [if_pos hp, hmatch]
      rfl
    · have hilt : i < p := lt_of_le_of_ne hip hi
      rw [if_pos (by omega), hnone i (le_refl i) hilt]
      exact ih (i + 1) (by omega) (by omega) (fun j hj1 hj2 => hnone j (by omega) hj2)

theorem sizeTsub_of_le (a bl : Nat) (h1 : bl ≤ a) (h2 : a < 2 ^ 64) :
    sizeTsub a bl = a - bl := by
  unfold sizeTsub
  have : 2 ^ 64 + a - bl = 2 ^ 64 + (a - bl) := by omega
  rw [this, Nat.add_mod_left, Nat.mod_eq_of_lt (by omega)]

theorem matchAt_shift (l1 l2 token : List Nat) (j : Nat) :
    matchAt (l1 ++ l2) (l1.length + j) token = matchAt l2 j token := by
  unfold matchAt
  rw [List.drop_append]


theorem matchAt_here (pre tok rest : List Nat) :
    matchAt (pre ++ (tok ++ rest)) pre.length tok = true := by
  unfold matchAt
  rw [List.drop_left, List.take_append_of_le_length (le_refl _), List.take_length]
  exact beq_self_eq_true tok

theorem drop_here (pre rest : List Nat) : (pre ++ rest).drop pre.length = rest :=
  List.drop_left pre rest

theorem parse_step (b hdr frame rest2 : List Nat) (s : StreamState)
    (hbound : s.boundary = b)
    (hbuf : s.buffer = b ++ (hdr ++ (crlfcrlf ++ (frame ++ (b ++ rest2)))))
    (hb : b ≠ []) (hframe : frame ≠ []) (hrest : 4 ≤ rest2.length)
    (hcap : s.buffer.length ≤ MJPEG_BUFFER_SIZE)
    (hhdr : ∀ j < hdr.length, matchAt (hdr ++ crlfcrlf) j crlfcrlf = false)
    (hfr : ∀ j < frame.length, matchAt (frame ++ b) j b = false) :
    parsePhase s = Sum.inr
      ({ s with buffer := b ++ rest2, frameCount := s.frameCount + 1 }, some frame) := by
  have hc4 : crlfcrlf.length = 4 := rfl
  have hM : MJPEG_BUFFER_SIZE = 102400 := rfl
  have hbpos : 0 < b.length := List.length_pos.mpr hb
  have hfpos : 0 < frame.length := List.length_pos.mpr hframe
  have hlen : s.buffer.length =
      b.length + (hdr.length + (4 + (frame.length + (b.length + rest2.length)))) := by
    rw [hbuf]
    simp [hc4]
  have hlt64 : s.buffer.length < 2 ^ 64 := by
    have h2 : MJPEG_BUFFER_SIZE < 2 ^ 64 := by norm_num [MJPEG_BUFFER_SIZE]
    omega
  have e1 : s.buffer = (b ++ hdr) ++ (crlfcrlf ++ (frame ++ (b ++ rest2))) := by
    rw [hbuf]
    simp only [List.append_assoc]
  have l1 : (b ++ hdr).length = b.length + hdr.length := by simp
  have e2 : s.buffer = ((b ++ hdr) ++ (crlfcrlf ++ frame)) ++ (b ++ rest2) := by
    rw [hbuf]
    simp only [List.append_assoc]
  have l2 : ((b ++ hdr) ++ (crlfcrlf ++ frame)).length =
      b.length + hdr.length + 4 + frame.length := by
    simp [hc4]
    omega
  have e4 : s.buffer = ((b ++ hdr) ++ crlfcrlf) ++ (frame ++ (b ++ rest2)) := by
    rw [hbuf]
    simp only [List.append_assoc]
  have l4 : ((b ++ hdr) ++ crlfcrlf).length = b.length + hdr.length + 4 := by
    simp [hc4]
    omega
  -- stage 1: the boundary is found at offset 0
  have hfind : findBoundaryInBuffer s.buffer s.boundary = some 0 := by
    unfold findBoundaryInBuffer findBoundaryScanBound
    rw [hbound, sizeTsub_of_le _ _ (by omega) hlt64]
    apply scanFrom_at_zero
    · rw [hbuf]
      exact matchAt_self_prefix b _
    · omega
  -- stage 2: the end-of-headers separator is found right after the headers
  have hscan : scanHeaderEnd s.buffer (0 + s.boundary.length) (s.buffer.length + 1) =
      some (b.length + hdr.length + 4) := by
    have hmatch : matchAt s.buffer (b.length + hdr.length) crlfcrlf = true := by
      rw [e1, ← l1]
      exact matchAt_here _ _ _
    have hplarge : b.length + hdr.length + 3 < s.buffer.length := by omega
    rw [hbound, Nat.zero_add]
    have hres := scanHeaderEnd_found s.buffer (b.length + hdr.length) hmatch hplarge
      (s.buffer.length + 1) b.length (by omega) (by omega) ?_
    · exact hres
    · intro j hj1 hj2
      obtain ⟨j2, rfl⟩ : ∃ j2, j = b.length + j2 := ⟨j - b.length, by omega⟩
      have hj2lt : j2 < hdr.length := by omega
      rw [hbuf, matchAt_shift]
      rw [show hdr ++ (crlfcrlf ++ (frame ++ (b ++ rest2))) =
        (hdr ++ crlfcrlf) ++ (frame ++ (b ++ rest2)) from by
          simp only [List.append_assoc]]
      rw [matchAt_append_left _ _ _ _ (by simp [hc4]; omega)]
      exact hhdr j2 hj2lt
  -- stage 3: the closing boundary of the frame
  have htok : scanToken s.buffer s.boundary (b.length + hdr.length + 4)
      (s.buffer.length + 1) = some (b.length + hdr.length + 4 + frame.length) := by
    have hmatch : matchAt s.buffer (b.length + hdr.length + 4 + frame.length) b = true := by
      rw [e2, ← l2]
      exact matchAt_here _ _ _
    have hplarge : b.length + hdr.length + 4 + frame.length + b.length <
        s.buffer.length := by omega
    rw [hbound]
    apply scanToken_found s.buffer b _ hmatch hplarge
    · omega
    · omega
    · intro j hj1 hj2
      obtain ⟨j2, rfl⟩ : ∃ j2, j = b.length + hdr.length + 4 + j2 :=
        ⟨j - (b.length + hdr.length + 4), by omega⟩
      have hj2lt : j2 < frame.length := by omega
      rw [e4, show b.length + hdr.length + 4 + j2 =
        ((b ++ hdr) ++ crlfcrlf).length + j2 from by rw [l4], matchAt_shift]
      rw [show frame ++ (b ++ rest2) = (frame ++ b) ++ rest2 from by
        simp only [List.append_assoc]]
      rw [matchAt_append_left _ _ _ _ (by simp; omega)]
      exact hfr j2 hj2lt
  -- the slices produced by the successful iteration
  have hdrop1 : s.buffer.drop (b.length + hdr.length + 4) = frame ++ (b ++ rest2) := by
    rw [e4, ← l4]
    exact drop_here _ _
  have hdrop2 : s.buffer.drop (b.length + hdr.length + 4 + frame.length) =
      b ++ rest2 := by
    rw [e2, ← l2]
    exact drop_here _ _
  have htake : (frame ++ (b ++ rest2)).take frame.length = frame := by
    rw [List.take_append_of_le_length (le_refl _), List.take_length]
  unfold parsePhase
  simp only [hfind]
  simp only [hscan]
  rw [if_neg (by omega)]
  simp only [htok]
  rw [if_pos ⟨by omega, by omega⟩]
  rw [hdrop2, hdrop1]
  rw [show b.length + hdr.length + 4 + frame.length - (b.length + hdr.length + 4) =
    frame.length from by omega]
  rw [htake]

theorem readMoreData_nothing (s : StreamState) (h : s.pending = []) :
    readMoreData s = (s, decide (0 < s.buffer.length)) := by
  unfold readMoreData
  rw [h]
  rfl

theorem extractIter_loaded (s : StreamState) (hpend : s.pending = [])
    (hne : s.buffer ≠ []) : extractIter s = parsePhase s := by
  unfold extractIter
  by_cases h : s.buffer.length < 1024
  · rw [if_pos h, readMoreData_nothing s hpend]
    simp [List.length_pos.mpr hne]
  · rw [if_neg h]

theorem readMoreData_initial (s : StreamState) (hbuf : s.buffer = [])
    (hpend : s.pending ≠ []) (hcap : s.pending.length ≤ MJPEG_BUFFER_SIZE) :
    readMoreData s = ({ s with buffer := s.pending, pending := [] }, true) := by
  have hplen : 0 < s.pending.length := List.length_pos.mpr hpend
  unfold readMoreData
  rw [if_neg (show ¬s.pending.isEmpty = true from by simp [hpend])]
  rw [hbuf]
  simp only [List.length_nil, Nat.sub_zero]
  simp only [Nat.min_eq_left hcap]
  rw [if_neg (by omega)]
  simp [List.take_length, List.drop_length, hplen]

theorem extractIter_initial (s : StreamState) (hbuf : s.buffer = [])
    (hpend : s.pending ≠ []) (hcap : s.pending.length ≤ MJPEG_BUFFER_SIZE) :
    extractIter s = parsePhase { s with buffer := s.pending, pending := [] } := by
  unfold extractIter
  rw [if_pos (show s.buffer.length < 1024 from by rw [hbuf]; decide)]
  rw [readMoreData_initial s hbuf hpend hcap]
  rfl

theorem streamBytes_nil (b : List Nat) : streamBytes b [] = b ++ streamEpilogue := by
  unfold streamBytes
  simp

theorem streamBytes_cons (b : List Nat) (p : MPart) (ps : List MPart) :
    streamBytes b (p :: ps) =
      b ++ (p.hdr ++ (crlfcrlf ++ (p.frame ++ streamBytes b ps))) := by
  unfold streamBytes partBytes
  simp [List.append_assoc]

theorem streamBytes_start (b : List Nat) (ps : List MPart) :
    ∃ r2, streamBytes b ps = b ++ r2 ∧ 4 ≤ r2.length := by
  cases ps with
  | nil =>
    exact ⟨streamEpilogue, streamBytes_nil b, by decide⟩
  | cons p ps =>
    refine ⟨p.hdr ++ (crlfcrlf ++ (p.frame ++ streamBytes b ps)), streamBytes_cons b p ps, ?_⟩
    simp [crlfcrlf]
    omega

theorem streamBytes_cons_length (b : List Nat) (p : MPart) (ps : List MPart) :
    (streamBytes b ps).length ≤ (streamBytes b (p :: ps)).length := by
  rw [streamBytes_cons]
  simp
  omega

theorem fetchFrame_step (b : List Nat) (p : MPart) (ps : List MPart) (s : StreamState)
    (hpend : s.pending = []) (hbound : s.boundary = b) (hconn : s.connected = true)
    (hbuf : s.buffer = streamBytes b (p :: ps))
    (hcap : s.buffer.length ≤ MJPEG_BUFFER_SIZE)
    (hb : b ≠ []) (hwf : PartWF b p) :
    fetchFrame s 1 = some
      ({ s with buffer := streamBytes b ps, frameCount := s.frameCount + 1 },
        some p.frame) := by
  obtain ⟨r2, hr2, hr2len⟩ := streamBytes_start b ps
  have hbuf2 : s.buffer = b ++ (p.hdr ++ (crlfcrlf ++ (p.frame ++ (b ++ r2)))) := by
    rw [hbuf, streamBytes_cons, hr2]
  have hne : s.buffer ≠ [] := by
    rw [hbuf2]
    intro hc
    exact hb (List.append_eq_nil.mp hc).1
  have hparse := parse_step b p.hdr p.frame r2 s hbound hbuf2 hb hwf.1 hr2len hcap
    hwf.2.1 hwf.2.2
  unfold fetchFrame
  rw [hconn, if_pos rfl]
  unfold extractFrame
  rw [extractIter_loaded s hpend hne, hparse]
  rw [← hr2]
  rw [hconn]

theorem fetchMany_loaded (b : List Nat) (hb : b ≠ []) :
    ∀ ps : List MPart, (∀ p ∈ ps, PartWF b p) →
      ∀ s : StreamState, s.pending = [] → s.boundary = b → s.connected = true →
        s.buffer = streamBytes b ps →
        (streamBytes b ps).length ≤ MJPEG_BUFFER_SIZE →
        fetchMany s ps.length 1 =
          some (ps.map (fun p => p.frame),
            { buffer := streamBytes b [], pending := [], boundary := b,
              frameCount := s.frameCount + ps.length, connected := true }) := by
  intro ps
  induction ps with
  | nil =>
    intro _ s hpend hbound hconn hbuf _
    obtain ⟨bf, pd, bd, fc, cn⟩ := s
    simp only at hpend hbound hconn hbuf
    subst hpend hbound hconn hbuf
    rfl
  | cons p ps ih =>
    intro hwf s hpend hbound hconn hbuf hcap
    have hstep := fetchFrame_step b p ps s hpend hbound hconn hbuf
      (by rw [hbuf]; exact hcap) hb (hwf p (List.mem_cons_self p ps))
    show fetchMany s (ps.length + 1) 1 = _
    unfold fetchMany
    simp only [hstep]
    have hrec := ih (fun q hq => hwf q (List.mem_cons_of_mem p hq))
      { s with buffer := streamBytes b ps, frameCount := s.frameCount + 1 }
      hpend hbound hconn rfl
      (le_trans (streamBytes_cons_length b p ps) hcap)
    rw [hrec]
    simp only [List.map_cons]
    have harith : s.frameCount + 1 + ps.length = s.frameCount + (ps.length + 1) := by
      omega
    rw [harith, List.length_cons]

theorem fetchFrame_initial (b : List Nat) (p : MPart) (ps : List MPart)
    (hb : b ≠ []) (hwfp : PartWF b p)
    (hcap : (streamBytes b (p :: ps)).length ≤ MJPEG_BUFFER_SIZE) :
    fetchFrame (initStream b (p :: ps)) 1 =
      some ({ buffer := streamBytes b ps, pending := [], boundary := b,
              frameCount := 1, connected := true }, some p.frame) := by
  obtain ⟨r2, hr2, hr2len⟩ := streamBytes_start b ps
  have hne : streamBytes b (p :: ps) ≠ [] := by
    rw [streamBytes_cons]
    intro hc
    exact hb (List.append_eq_nil.mp hc).1
  have hbuf2 : (⟨streamBytes b (p :: ps), [], b, 0, true⟩ : StreamState).buffer =
      b ++ (p.hdr ++ (crlfcrlf ++ (p.frame ++ (b ++ r2)))) := by
    show streamBytes b (p :: ps) = _
    rw [streamBytes_cons, hr2]
  have hparse := parse_step b p.hdr p.frame r2
    (⟨streamBytes b (p :: ps), [], b, 0, true⟩ : StreamState) rfl hbuf2 hb
    hwfp.1 hr2len hcap hwfp.2.1 hwfp.2.2
  have hs1 : ({ initStream b (p :: ps) with
      buffer := (initStream b (p :: ps)).pending, pending := [] } : StreamState) =
      (⟨streamBytes b (p :: ps), [], b, 0, true⟩ : StreamState) := rfl
  unfold fetchFrame
  rw [if_pos (show (initStream b (p :: ps)).connected = true from rfl)]
  unfold extractFrame
  rw [extractIter_initial (initStream b (p :: ps)) rfl hne hcap, hs1, hparse]
  rw [← hr2]

theorem fetchMany_initial_run (b : List Nat) (p : MPart) (ps : List MPart)
    (hwf : StreamWF b (p :: ps)) :
    fetchMany (initStream b (p :: ps)) (p :: ps).length 1 =
      some ((p :: ps).map (fun q => q.frame),
        ⟨b ++ streamEpilogue, [], b, (p :: ps).length, true⟩) := by
  obtain ⟨hb, hpwf, hcap⟩ := hwf
  have hinit := fetchFrame_initial b p ps hb (hpwf p (List.mem_cons_self p ps)) hcap
  show fetchMany (initStream b (p :: ps)) (ps.length + 1) 1 = _
  unfold fetchMany
  simp only [hinit]
  have hrec := fetchMany_loaded b hb ps (fun q hq => hpwf q (List.mem_cons_of_mem p hq))
    ⟨streamBytes b ps, [], b, 1, true⟩ rfl rfl rfl rfl
    (le_trans (streamBytes_cons_length b p ps) hcap)
  rw [hrec]
  simp only [List.map_cons, streamBytes_nil]
  rw [show 1 + ps.length = ps.length + 1 from by omega, List.length_cons]

theorem findIdx?_none_of_not_found (l : List Zone) (zid : Int)
    (h : ∀ z ∈ l, z.id ≠ zid) : l.findIdx? (fun z => z.id == zid) = none := by
  suffices hgen : ∀ start : Nat, List.findIdx? (fun z => z.id == zid) l start = none by
    exact hgen 0
  induction l with
  | nil => intro start; rfl
  | cons z zs ih =>
    intro start
    rw [List.findIdx?_cons]
    rw [show (z.id == zid) = false from by
      simpa using h z (List.mem_cons_self z zs)]
    simp only [Bool.false_eq_true, if_false]
    exact ih (fun q hq => h q (List.mem_cons_of_mem z hq)) (start + 1)

theorem eraseIdx_set {α : Type} (l : List α) (i : Nat) (a : α) :
    (l.set i a).eraseIdx i = l.eraseIdx i := by
  induction l generalizing i with
  | nil => rfl
  | cons x xs ih =>
    cases i with
    | zero => rfl
    | succ j =>
      rw [List.set_cons_succ, List.eraseIdx_cons_succ, List.eraseIdx_cons_succ, ih]

theorem getRelayState_eq_activeMap (s : ZMState) (pin : Int) :
    getRelayState s pin =
      ((relayActiveMap s).find? (fun pa => pa.1 == pin)).elim false (fun pa => pa.2) := by
  unfold getRelayState findRelay relayActiveMap
  rw [List.find?_map]
  rw [show ((fun pa : Int × Bool => pa.1 == pin) ∘ fun r : RelayState => (r.pin, r.active)) =
    (fun r : RelayState => r.pin == pin) from rfl]
  cases s.relayStates.find? (fun r => r.pin == pin) <;> rfl

theorem getRelayState_foldDeact (s : ZMState) (pins : List Int) (pin : Int)
    (hnd : relayPinsNodup s) (hpin : pin ∈ pins) :
    getRelayState (pins.foldl (fun a p => deactivateRelay a p) s) pin = false := by
  rw [getRelayState_eq_activeMap, foldDeact_activeMap _ _ hnd, List.find?_map]
  cases hfind : (relayActiveMap s).find? ((fun pa => pa.1 == pin) ∘
      fun pa => (pa.1, pa.2 && !pins.contains pa.1)) with
  | none => rfl
  | some pa =>
    have hp := List.find?_some hfind
    simp only [Function.comp] at hp
    have hpa1 : pa.1 = pin := eq_of_beq hp
    have hcont : pins.contains pa.1 = true := by
      rw [hpa1]
      exact List.elem_eq_true_of_mem hpin
    show ((pa.1, pa.2 && !pins.contains pa.1)).2 = false
    rw [hcont]
    simp

theorem removeZone_eq_found_active (s : ZMState) (zid : Int) (i : Nat) (z : Zone)
    (hfind : s.zones.findIdx? (fun zz => zz.id == zid) = some i)
    (hget : s.zones.get? i = some z) (hact : z.active = true) :
    removeZone s zid =
      (true,
        { z.relayPins.foldl (fun a p => deactivateRelay a p)
            { s with zones := s.zones.set i { z with active := false } } with
          zones := (z.relayPins.foldl (fun a p => deactivateRelay a p)
            { s with zones := s.zones.set i { z with active := false } }).zones.eraseIdx i,
          zoneDetectionCounts := (z.relayPins.foldl (fun a p => deactivateRelay a p)
            { s with zones := s.zones.set i { z with active := false } }
            ).zoneDetectionCounts.eraseIdx i }) := by
  unfold removeZone
  simp only [hfind]
  simp only [hget]
  simp [hact]

/-! ### Claim theorems -/

/-- C5 (code bug): the boundary scan of MJPEGStream::findBoundaryInBuffer is
supposed to read only indices below `bufferPos` for every `bufferPos`,
including values smaller than the boundary token's length.  In the source the
loop bound `bufferPos - strlen(boundary)` is computed in `size_t`: with 5
buffered bytes and the 12-byte fallback boundary "--myboundary" it underflows
to `2^64 - 7`, so the scan's index range extends far beyond both `bufferPos`
and the 100 KiB buffer itself, contradicting the claimed bound. -/
theorem C5_scan_bound_underflow :
    findBoundaryScanBound 5 12 = 2 ^ 64 - 7 ∧
    5 < findBoundaryScanBound 5 12 ∧
    MJPEG_BUFFER_SIZE < findBoundaryScanBound 5 12 := by
  refine ⟨?_, ?_, ?_⟩ <;>
    norm_num [findBoundaryScanBound, sizeTsub, MJPEG_BUFFER_SIZE]

/-- C6: a zone that is Active with last detection at `t0` and timeout `T`
stays Active (indeed the whole engine state is unchanged) on a tick with no
overlapping detection while `now - t0 < T * 1000` ms, becomes Inactive as
soon as `now - t0 ≥ T * 1000` ms, and an overlapping detection re-stamps the
zone with `lastDetectionTime = now` and keeps it Active. -/
theorem C6_zone_timeout (s : ZMState) (i : Nat) (z : Zone) (now : Nat)
    (hget : s.zones.get? i = some z) (hactive : z.active = true)
    (_ht0 : z.lastDetectionTime ≤ now) (hT : 0 ≤ z.timeout)
    (hTsmall : z.timeout * 1000 < 2 ^ 32) :
    (now - z.lastDetectionTime < (z.timeout * 1000).toNat →
      updateZoneState s i false now = s) ∧
    ((z.timeout * 1000).toNat ≤ now - z.lastDetectionTime →
      (updateZoneState s i false now).zones.get? i =
        some { z with active := false }) ∧
    ((updateZoneState s i true now).zones.get? i =
      some { z with active := true, lastDetectionTime := now }) := by
  have hlt : i < s.zones.length := get?_some_lt hget
  have htm : timeoutMs z.timeout = (z.timeout * 1000).toNat := by
    unfold timeoutMs
    rw [Int.emod_eq_of_lt (by positivity) hTsmall]
  refine ⟨?_, ?_, ?_⟩
  · intro hsmall
    apply updateZoneState_eq_idle s i z now hget
    rw [hactive, htm]
    simp only [Bool.true_and, decide_eq_false_iff_not]
    omega
  · intro hbig
    rw [updateZoneState_eq_timeout s i z now hget
      (by rw [hactive, htm]; simp only [Bool.true_and, decide_eq_true_eq]; omega)]
    rw [condDeact_zones]
    exact List.get?_set_eq_of_lt _ hlt
  · rw [updateZoneState_eq_detected s i z now hget, foldActivate_zones]
    exact List.get?_set_eq_of_lt _ hlt

/-- C6 witness: with timeout 5 s and last detection at 0, a tick at 4900 ms
leaves the zone Active and the state untouched, a tick at 5000 ms turns it
Inactive, and a detection tick refreshes the timestamp. -/
theorem C6_zone_timeout_witness :
    (updateZoneState ⟨[⟨1, 0, 0, 10, 10, [12], 5, true, 0⟩],
        [⟨12, true, 0, 1⟩], 0, [0], []⟩ 0 false 4900 =
      ⟨[⟨1, 0, 0, 10, 10, [12], 5, true, 0⟩], [⟨12, true, 0, 1⟩], 0, [0], []⟩) ∧
    ((updateZoneState ⟨[⟨1, 0, 0, 10, 10, [12], 5, true, 0⟩],
        [⟨12, true, 0, 1⟩], 0, [0], []⟩ 0 false 5000).zones.get? 0 =
      some ⟨1, 0, 0, 10, 10, [12], 5, false, 0⟩) := by
  constructor
  · exact (C6_zone_timeout ⟨[⟨1, 0, 0, 10, 10, [12], 5, true, 0⟩],
      [⟨12, true, 0, 1⟩], 0, [0], []⟩ 0 ⟨1, 0, 0, 10, 10, [12], 5, true, 0⟩ 4900
      rfl rfl (by decide) (by decide) (by decide)).1 (by decide)
  · exact (C6_zone_timeout ⟨[⟨1, 0, 0, 10, 10, [12], 5, true, 0⟩],
      [⟨12, true, 0, 1⟩], 0, [0], []⟩ 0 ⟨1, 0, 0, 10, 10, [12], 5, true, 0⟩ 5000
      rfl rfl (by decide) (by decide) (by decide)).2.1 (by decide)

/-- C7: checkOverlap holds exactly when the detection box, scaled to pixel
space and truncated as by the C cast, has a non-zero-area intersection with
the zone rectangle (strict inequalities, touching edges do not count), and on
a 640x480 frame the normalized box (0.5, 0.5, 0.1, 0.1) overlaps zone
(300, 220, 40, 40) but not (0, 0, 10, 10). -/
theorem C7_overlap_iff :
    (∀ (d : Detection) (z : Zone) (fw fh : Int),
      0 < truncQ (d.width * (fw : ℚ)) → 0 < truncQ (d.height * (fh : ℚ)) →
      0 < z.width → 0 < z.height →
      (checkOverlap d z fw fh = true ↔
        (max (truncQ (d.x * (fw : ℚ))) z.x <
            min (truncQ (d.x * (fw : ℚ)) + truncQ (d.width * (fw : ℚ)))
              (z.x + z.width) ∧
          max (truncQ (d.y * (fh : ℚ))) z.y <
            min (truncQ (d.y * (fh : ℚ)) + truncQ (d.height * (fh : ℚ)))
              (z.y + z.height)))) ∧
    checkOverlap ⟨1/2, 1/2, 1/10, 1/10, 1⟩ ⟨1, 300, 220, 40, 40, [], 5, false, 0⟩
      640 480 = true ∧
    checkOverlap ⟨1/2, 1/2, 1/10, 1/10, 1⟩ ⟨1, 0, 0, 10, 10, [], 5, false, 0⟩
      640 480 = false := by
  refine ⟨?_, ?_, ?_⟩
  · intro d z fw fh hd1 hd2 hz1 hz2
    unfold checkOverlap
    simp only [Bool.and_eq_true, decide_eq_true_eq]
    rw [max_lt_iff, max_lt_iff, lt_min_iff, lt_min_iff, lt_min_iff, lt_min_iff]
    constructor
    · intro h
      omega
    · intro h
      omega
  · norm_num [checkOverlap, truncQ]
  · norm_num [checkOverlap, truncQ]

/-- C7 witness: the equivalence instantiated at the claim's concrete example
on a 640x480 frame. -/
theorem C7_overlap_iff_witness :
    checkOverlap ⟨1/2, 1/2, 1/10, 1/10, 1⟩ ⟨1, 300, 220, 40, 40, [], 5, false, 0⟩
      640 480 = true ↔
    (max (truncQ ((1/2 : ℚ) * ((640 : Int) : ℚ))) 300 <
        min (truncQ ((1/2 : ℚ) * ((640 : Int) : ℚ)) +
          truncQ ((1/10 : ℚ) * ((640 : Int) : ℚ))) (300 + 40) ∧
      max (truncQ ((1/2 : ℚ) * ((480 : Int) : ℚ))) 220 <
        min (truncQ ((1/2 : ℚ) * ((480 : Int) : ℚ)) +
          truncQ ((1/10 : ℚ) * ((480 : Int) : ℚ))) (220 + 40)) :=
  C7_overlap_iff.1 ⟨1/2, 1/2, 1/10, 1/10, 1⟩ ⟨1, 300, 220, 40, 40, [], 5, false, 0⟩
    640 480 (by norm_num [truncQ]) (by norm_num [truncQ]) (by norm_num) (by norm_num)

/-- C8: addZone at the zone maximum, and removeZone / updateZone on an
unknown zone id, report failure and leave the whole engine state unchanged. -/
theorem C8_failures_leave_state (s : ZMState) (z : Zone) (zid : Int)
    (hfull : s.zones.length = MAX_ZONES)
    (hmiss : ∀ zz ∈ s.zones, zz.id ≠ zid) :
    addZone s z = (false, s) ∧ removeZone s zid = (false, s) ∧
    updateZone s zid z = (false, s) := by
  refine ⟨?_, ?_, ?_⟩
  · unfold addZone
    rw [if_pos (by omega)]
  · unfold removeZone
    rw [findIdx?_none_of_not_found s.zones zid hmiss]
  · unfold updateZone
    rw [findIdx?_none_of_not_found s.zones zid hmiss]

/-- C8 witness: a table of ten zones rejects an eleventh, and zone id 99 is
unknown, with the state unchanged in all three operations. -/
theorem C8_failures_leave_state_witness :
    addZone ⟨[⟨1, 0, 0, 1, 1, [12], 5, false, 0⟩, ⟨2, 0, 0, 1, 1, [12], 5, false, 0⟩,
      ⟨3, 0, 0, 1, 1, [12], 5, false, 0⟩, ⟨4, 0, 0, 1, 1, [12], 5, false, 0⟩,
      ⟨5, 0, 0, 1, 1, [12], 5, false, 0⟩, ⟨6, 0, 0, 1, 1, [12], 5, false, 0⟩,
      ⟨7, 0, 0, 1, 1, [12], 5, false, 0⟩, ⟨8, 0, 0, 1, 1, [12], 5, false, 0⟩,
      ⟨9, 0, 0, 1, 1, [12], 5, false, 0⟩, ⟨10, 0, 0, 1, 1, [12], 5, false, 0⟩],
      [⟨12, false, 0, 0⟩], 0, [0, 0, 0, 0, 0, 0, 0, 0, 0, 0], []⟩
      ⟨11, 0, 0, 1, 1, [13], 5, false, 0⟩ =
    (false, ⟨[⟨1, 0, 0, 1, 1, [12], 5, false, 0⟩, ⟨2, 0, 0, 1, 1, [12], 5, false, 0⟩,
      ⟨3, 0, 0, 1, 1, [12], 5, false, 0⟩, ⟨4, 0, 0, 1, 1, [12], 5, false, 0⟩,
      ⟨5, 0, 0, 1, 1, [12], 5, false, 0⟩, ⟨6, 0, 0, 1, 1, [12], 5, false, 0⟩,
      ⟨7, 0, 0, 1, 1, [12], 5, false, 0⟩, ⟨8, 0, 0, 1, 1, [12], 5, false, 0⟩,
      ⟨9, 0, 0, 1, 1, [12], 5, false, 0⟩, ⟨10, 0, 0, 1, 1, [12], 5, false, 0⟩],
      [⟨12, false, 0, 0⟩], 0, [0, 0, 0, 0, 0, 0, 0, 0, 0, 0], []⟩) :=
  (C8_failures_leave_state _ ⟨11, 0, 0, 1, 1, [13], 5, false, 0⟩ 99
    (by decide) (by decide)).1

/-- C9 counterexample: for a pin whose relay is already ON, two consecutive
activateRelay calls produce zero physical writes, not the one write the
claim promises for every known pin; the state is untouched. -/
theorem C9_already_active_counterexample :
    (activateRelay (activateRelay ⟨[], [⟨12, true, 0, 1⟩], 0, [], []⟩ 12 5) 12 6).writes
      = [] ∧
    ¬ (activateRelay (activateRelay ⟨[], [⟨12, true, 0, 1⟩], 0, [], []⟩ 12 5) 12 6).writes
      = [((12 : Int), true)] := by
  decide

/-- C9 (amended): duplicate relay commands are suppressed — two consecutive
activateRelay calls on a known pin produce exactly one physical write and one
activation-count increment when the relay was OFF, and none when it was
already ON; deactivateRelay behaves dually (one write from ON, none from
OFF). -/
theorem C9_idempotent_amended :
    (∀ (s : ZMState) (pin : Int) (now now2 : Nat) (st : RelayState),
      findRelay s.relayStates pin = some st → st.active = false →
        (activateRelay (activateRelay s pin now) pin now2).writes =
          s.writes ++ [(pin, true)] ∧
        findRelay (activateRelay (activateRelay s pin now) pin now2).relayStates pin =
          some { st with active := true, lastActivationTime := now,
                         activationCount := st.activationCount + 1 }) ∧
    (∀ (s : ZMState) (pin : Int) (now now2 : Nat) (st : RelayState),
      findRelay s.relayStates pin = some st → st.active = true →
        activateRelay (activateRelay s pin now) pin now2 = s) ∧
    (∀ (s : ZMState) (pin : Int) (st : RelayState),
      findRelay s.relayStates pin = some st → st.active = true →
        (deactivateRelay (deactivateRelay s pin) pin).writes =
          s.writes ++ [(pin, false)] ∧
        findRelay (deactivateRelay (deactivateRelay s pin) pin).relayStates pin =
          some { st with active := false }) ∧
    (∀ (s : ZMState) (pin : Int) (st : RelayState),
      findRelay s.relayStates pin = some st → st.active = false →
        deactivateRelay (deactivateRelay s pin) pin = s) := by
  refine ⟨?_, ?_, ?_, ?_⟩
  · intro s pin now now2 st hst hin
    rw [activateRelay_eq_found_inactive s pin now st hst hin]
    have hf2 : findRelay (applyToPin s.relayStates pin
        (fun r => { r with active := true, lastActivationTime := now,
                           activationCount := r.activationCount + 1 })) pin =
        some { st with active := true, lastActivationTime := now,
                       activationCount := st.activationCount + 1 } := by
      rw [findRelay_applyToPin s.relayStates pin
        (fun r => { r with active := true, lastActivationTime := now,
                           activationCount := r.activationCount + 1 })
        (fun r => rfl), hst]
      rfl
    constructor
    · rw [activateRelay_eq_found_active _ pin now2 _ hf2 rfl]
    · rw [activateRelay_eq_found_active _ pin now2 _ hf2 rfl]
      exact hf2
  · intro s pin now now2 st hst hact
    rw [activateRelay_eq_found_active s pin now st hst hact,
      activateRelay_eq_found_active s pin now2 st hst hact]
  · intro s pin st hst hact
    rw [deactivateRelay_eq_found_active s pin st hst hact]
    have hf2 : findRelay (applyToPin s.relayStates pin
        (fun r => { r with active := false })) pin =
        some { st with active := false } := by
      rw [findRelay_applyToPin s.relayStates pin
        (fun r => { r with active := false }) (fun r => rfl), hst]
      rfl
    constructor
    · rw [deactivateRelay_eq_found_inactive _ pin _ hf2 rfl]
    · rw [deactivateRelay_eq_found_inactive _ pin _ hf2 rfl]
      exact hf2
  · intro s pin st hst hin
    rw [deactivateRelay_eq_found_inactive s pin st hst hin,
      deactivateRelay_eq_found_inactive s pin st hst hin]

/-- C9 witness: from OFF, two activations of pin 12 log exactly one write and
bump the activation counter once; two further deactivations log exactly one
OFF write. -/
theorem C9_idempotent_amended_witness :
    ((activateRelay (activateRelay ⟨[], [⟨12, false, 0, 1⟩], 0, [], []⟩ 12 5) 12 6).writes
      = [((12 : Int), true)]) ∧
    (deactivateRelay (deactivateRelay ⟨[], [⟨12, true, 0, 1⟩], 0, [], []⟩ 12) 12).writes
      = [((12 : Int), false)] :=
  ⟨(C9_idempotent_amended.1 ⟨[], [⟨12, false, 0, 1⟩], 0, [], []⟩ 12 5 6
      ⟨12, false, 0, 1⟩ rfl rfl).1,
   (C9_idempotent_amended.2.2.1 ⟨[], [⟨12, true, 0, 1⟩], 0, [], []⟩ 12
      ⟨12, true, 0, 1⟩ rfl rfl).1⟩

/-- C2 counterexample: updateZone replaces a zone wholesale without
recomputing relay state.  Starting from a state satisfying the OR invariant
(zone 1 Active on relay 12, relay 12 ON), replacing zone 1 with an Inactive
copy succeeds yet leaves relay 12 ON while no Active zone references it, so
the claimed invariant fails right after updateZone. -/
theorem C2_updateZone_counterexample :
    relayInvariant ⟨[⟨1, 0, 0, 10, 10, [12], 5, true, 0⟩], [⟨12, true, 0, 1⟩],
      0, [0], []⟩ ∧
    (updateZone ⟨[⟨1, 0, 0, 10, 10, [12], 5, true, 0⟩], [⟨12, true, 0, 1⟩],
      0, [0], []⟩ 1 ⟨1, 0, 0, 10, 10, [12], 5, false, 0⟩).1 = true ∧
    ¬ relayInvariant (updateZone ⟨[⟨1, 0, 0, 10, 10, [12], 5, true, 0⟩],
      [⟨12, true, 0, 1⟩], 0, [0], []⟩ 1 ⟨1, 0, 0, 10, 10, [12], 5, false, 0⟩).2 := by
  refine ⟨by decide, by decide, by decide⟩

/-- C2 (amended): from any well-formed engine state (shared-relay invariant
holding, duplicate-free relay pins and zone ids), update() preserves the
invariant — every relay is ON exactly when some Active zone references it,
shared relays included — and disableAllRelays() re-establishes it
unconditionally.  removeZone and updateZone do not preserve it (see the
counterexample): removeZone releases shared relays unconditionally and
updateZone rewrites the zone without touching relays. -/
theorem C2_invariant_amended :
    (∀ (s : ZMState) (dets : List Detection) (fw fh : Int) (now : Nat),
      ZMWF s → relayInvariant (update s dets fw fh now)) ∧
    (∀ s : ZMState, relayPinsNodup s → zoneIdsNodup s →
      relayInvariant (disableAllRelays s)) := by
  constructor
  · intro s dets fw fh now hwf
    exact (update_wf s dets fw fh now hwf).1
  · intro s hnd hid
    exact (disableAllRelays_wf s hnd hid).1

/-- C2 witness: two Active zones sharing relay 12 both time out in one
update() tick and the invariant still holds afterwards; disableAllRelays
re-establishes it from the same state. -/
theorem C2_invariant_amended_witness :
    relayInvariant (update ⟨[⟨1, 0, 0, 10, 10, [12], 5, true, 0⟩,
      ⟨2, 20, 20, 10, 10, [12, 13], 5, true, 0⟩],
      [⟨12, true, 0, 1⟩, ⟨13, true, 0, 1⟩], 0, [0, 0], []⟩ [] 640 480 10000) ∧
    relayInvariant (disableAllRelays ⟨[⟨1, 0, 0, 10, 10, [12], 5, true, 0⟩,
      ⟨2, 20, 20, 10, 10, [12, 13], 5, true, 0⟩],
      [⟨12, true, 0, 1⟩, ⟨13, true, 0, 1⟩], 0, [0, 0], []⟩) :=
  ⟨C2_invariant_amended.1 ⟨[⟨1, 0, 0, 10, 10, [12], 5, true, 0⟩,
      ⟨2, 20, 20, 10, 10, [12, 13], 5, true, 0⟩],
      [⟨12, true, 0, 1⟩, ⟨13, true, 0, 1⟩], 0, [0, 0], []⟩ [] 640 480 10000
      (by refine ⟨by decide, by decide, by decide⟩),
   C2_invariant_amended.2 ⟨[⟨1, 0, 0, 10, 10, [12], 5, true, 0⟩,
      ⟨2, 20, 20, 10, 10, [12, 13], 5, true, 0⟩],
      [⟨12, true, 0, 1⟩, ⟨13, true, 0, 1⟩], 0, [0, 0], []⟩ (by decide) (by decide)⟩

/-- C4 counterexample: zones 1 and 2 are both Active and share relay 12.
removeZone 1 reports success but switches relay 12 OFF even though the
still-Active zone 2 references it, contradicting the claimed
shared-ownership rule. -/
theorem C4_shared_relay_counterexample :
    (removeZone ⟨[⟨1, 0, 0, 10, 10, [12], 5, true, 0⟩,
      ⟨2, 20, 20, 10, 10, [12, 13], 5, true, 0⟩],
      [⟨12, true, 0, 1⟩, ⟨13, true, 0, 1⟩], 0, [0, 0], []⟩ 1).1 = true ∧
    getRelayState (removeZone ⟨[⟨1, 0, 0, 10, 10, [12], 5, true, 0⟩,
      ⟨2, 20, 20, 10, 10, [12, 13], 5, true, 0⟩],
      [⟨12, true, 0, 1⟩, ⟨13, true, 0, 1⟩], 0, [0, 0], []⟩ 1).2 12 = false ∧
    (∃ z ∈ (removeZone ⟨[⟨1, 0, 0, 10, 10, [12], 5, true, 0⟩,
      ⟨2, 20, 20, 10, 10, [12, 13], 5, true, 0⟩],
      [⟨12, true, 0, 1⟩, ⟨13, true, 0, 1⟩], 0, [0, 0], []⟩ 1).2.zones,
      z.active = true ∧ (12 : Int) ∈ z.relayPins) := by
  refine ⟨by decide, by decide, by decide⟩

/-- C4 (amended): removeZone on an existing Active zone reports success,
first sets the zone Inactive and then deactivates every relay the zone
references unconditionally — including relays shared with other Active
zones — before erasing the zone from the table. -/
theorem C4_removeZone_amended (s : ZMState) (zid : Int) (i : Nat) (z : Zone)
    (hfind : s.zones.findIdx? (fun zz => zz.id == zid) = some i)
    (hget : s.zones.get? i = some z) (hact : z.active = true)
    (hnd : relayPinsNodup s) :
    (removeZone s zid).1 = true ∧
    (removeZone s zid).2.zones = s.zones.eraseIdx i ∧
    (∀ pin ∈ z.relayPins, getRelayState (removeZone s zid).2 pin = false) := by
  rw [removeZone_eq_found_active s zid i z hfind hget hact]
  refine ⟨rfl, ?_, ?_⟩
  · show ((z.relayPins.foldl (fun a p => deactivateRelay a p)
      { s with zones := s.zones.set i { z with active := false } }).zones.eraseIdx i)
      = s.zones.eraseIdx i
    rw [foldDeact_zones, eraseIdx_set]
  · intro pin hpin
    have hnd1 : relayPinsNodup
        { s with zones := s.zones.set i { z with active := false } } := hnd
    exact getRelayState_foldDeact _ z.relayPins pin hnd1 hpin

/-- C4 witness: removing Active zone 1 (sharing relay 12 with zone 2) from
the two-zone state reports success, erases zone 1 and leaves relay 12 OFF. -/
theorem C4_removeZone_amended_witness :
    (removeZone ⟨[⟨1, 0, 0, 10, 10, [12], 5, true, 0⟩,
      ⟨2, 20, 20, 10, 10, [12, 13], 5, true, 0⟩],
      [⟨12, true, 0, 1⟩, ⟨13, true, 0, 1⟩], 0, [0, 0], []⟩ 1).1 = true ∧
    (removeZone ⟨[⟨1, 0, 0, 10, 10, [12], 5, true, 0⟩,
      ⟨2, 20, 20, 10, 10, [12, 13], 5, true, 0⟩],
      [⟨12, true, 0, 1⟩, ⟨13, true, 0, 1⟩], 0, [0, 0], []⟩ 1).2.zones =
      [⟨2, 20, 20, 10, 10, [12, 13], 5, true, 0⟩] := by
  have h := C4_removeZone_amended ⟨[⟨1, 0, 0, 10, 10, [12], 5, true, 0⟩,
      ⟨2, 20, 20, 10, 10, [12, 13], 5, true, 0⟩],
      [⟨12, true, 0, 1⟩, ⟨13, true, 0, 1⟩], 0, [0, 0], []⟩ 1 0
      ⟨1, 0, 0, 10, 10, [12], 5, true, 0⟩ (by decide) rfl rfl (by decide)
  exact ⟨h.1, h.2.1⟩

/-- C1 counterexample: once the stream session reports disconnected, loop()
returns before the watchdog check, so even with no successfully parsed frame
for 120 s (twice the 60 s timeout) the tick leaves an energized relay ON and
its zone Active — disableAllRelays is never invoked.  This state is reachable:
a failed fetch makes the error branch disconnect the session while relays
stay ON. -/
theorem C1_disconnected_counterexample :
    WATCHDOG_TIMEOUT < 120000 -
      (⟨true, false, true, 0, 0, true, ⟨[⟨1, 0, 0, 10, 10, [12], 5, true, 0⟩],
        [⟨12, true, 0, 1⟩], 0, [0], []⟩⟩ : LoopState).lastFrameTime ∧
    getRelayState (loopTick ⟨true, false, true, 0, 0, true,
      ⟨[⟨1, 0, 0, 10, 10, [12], 5, true, 0⟩], [⟨12, true, 0, 1⟩], 0, [0], []⟩⟩
      120000 false []).zm 12 = true ∧
    (loopTick ⟨true, false, true, 0, 0, true,
      ⟨[⟨1, 0, 0, 10, 10, [12], 5, true, 0⟩], [⟨12, true, 0, 1⟩], 0, [0], []⟩⟩
      120000 false []).zm.zones = [⟨1, 0, 0, 10, 10, [12], 5, true, 0⟩] := by
  refine ⟨by decide, by decide, by decide⟩

/-- C1 (amended): while the stream is connected and was already connected on
the previous tick, a tick whose elapsed time since the last successfully
fetched frame exceeds WATCHDOG_TIMEOUT (60 s) forces every known relay OFF
and every zone Inactive via disableAllRelays and disconnects the session;
on such established-connection ticks a failed fetch never resets the timer
(mere socket activity does not feed the watchdog).  However, the timer is
also reset by a tick that first establishes the connection, and when the
session reports disconnected the watchdog check is skipped entirely (see the
counterexample). -/
theorem C1_watchdog_amended :
    (∀ (st : LoopState) (now : Nat) (fo : Bool) (dets : List Detection),
      st.wifiConnected = true → st.streamConnected = true → st.wasConnected = true →
      WATCHDOG_TIMEOUT < now - st.lastFrameTime →
        (∀ r ∈ (loopTick st now fo dets).zm.relayStates, r.active = false) ∧
        (∀ z ∈ (loopTick st now fo dets).zm.zones, z.active = false) ∧
        (loopTick st now fo dets).streamConnected = false) ∧
    (∀ (st : LoopState) (now : Nat) (dets : List Detection),
      st.wifiConnected = true → st.streamConnected = true → st.wasConnected = true →
        (loopTick st now false dets).lastFrameTime = st.lastFrameTime) ∧
    (∀ (st : LoopState) (now : Nat) (fo : Bool) (dets : List Detection),
      st.wifiConnected = true → st.streamConnected = true → st.wasConnected = false →
        (loopTick st now fo dets).lastFrameTime = now) := by
  refine ⟨?_, ?_, ?_⟩
  · intro st now fo dets hw hc hwc hwd
    unfold loopTick
    rw [hw, hc, hwc]
    simp only [Bool.not_true, Bool.false_eq_true, if_false]
    rw [if_pos hwd]
    exact ⟨(disableAllRelays_allOff st.zm).1, (disableAllRelays_allOff st.zm).2, rfl⟩
  · intro st now dets hw hc hwc
    unfold loopTick
    rw [hw, hc, hwc]
    simp only [Bool.not_true, Bool.false_eq_true, if_false]
    by_cases hwd : WATCHDOG_TIMEOUT < now - st.lastFrameTime
    · rw [if_pos hwd]
    · rw [if_neg hwd]
      by_cases herr : 5000 < now - st.lastErrorLog
      · rw [if_pos herr]
      · rw [if_neg herr]
  · intro st now fo dets hw hc hwc
    unfold loopTick
    rw [hw, hc, hwc]
    simp only [Bool.not_true, Bool.not_false, Bool.false_eq_true, if_false, if_true]
    by_cases hwd : WATCHDOG_TIMEOUT <
        now - ({ st with lastFrameTime := now, wasConnected := true } : LoopState).lastFrameTime
    · rw [if_pos hwd]
    · rw [if_neg hwd]
      by_cases hfo : fo = true
      · rw [hfo]
        simp only [if_true]
      · rw [show fo = false from by simpa using hfo]
        rw [if_neg Bool.false_ne_true]
        by_cases herr : 5000 <
            now - ({ st with lastFrameTime := now, wasConnected := true } : LoopState).lastErrorLog
        · rw [if_pos herr]
        · rw [if_neg herr]

/-- C1 witness: a connected, established session with a stuck parser: at
61 s past the last parsed frame the tick turns the live relay OFF, clears the
zone and disconnects; and a failed fetch one tick earlier did not move the
timer. -/
theorem C1_watchdog_amended_witness :
    ((∀ r ∈ (loopTick ⟨true, true, true, 0, 0, true,
        ⟨[⟨1, 0, 0, 10, 10, [12], 5, true, 0⟩], [⟨12, true, 0, 1⟩], 0, [0], []⟩⟩
        61000 false []).zm.relayStates, r.active = false) ∧
      (∀ z ∈ (loopTick ⟨true, true, true, 0, 0, true,
        ⟨[⟨1, 0, 0, 10, 10, [12], 5, true, 0⟩], [⟨12, true, 0, 1⟩], 0, [0], []⟩⟩
        61000 false []).zm.zones, z.active = false) ∧
      (loopTick ⟨true, true, true, 0, 0, true,
        ⟨[⟨1, 0, 0, 10, 10, [12], 5, true, 0⟩], [⟨12, true, 0, 1⟩], 0, [0], []⟩⟩
        61000 false []).streamConnected = false) ∧
    (loopTick ⟨true, true, true, 30000, 0, true,
        ⟨[⟨1, 0, 0, 10, 10, [12], 5, true, 0⟩], [⟨12, true, 0, 1⟩], 0, [0], []⟩⟩
        59000 false []).lastFrameTime = 30000 :=
  ⟨C1_watchdog_amended.1 ⟨true, true, true, 0, 0, true,
      ⟨[⟨1, 0, 0, 10, 10, [12], 5, true, 0⟩], [⟨12, true, 0, 1⟩], 0, [0], []⟩⟩
      61000 false [] rfl rfl rfl (by decide),
   C1_watchdog_amended.2.1 ⟨true, true, true, 30000, 0, true,
      ⟨[⟨1, 0, 0, 10, 10, [12], 5, true, 0⟩], [⟨12, true, 0, 1⟩], 0, [0], []⟩⟩
      59000 [] rfl rfl rfl⟩

/-- C3: for every well-formed multipart stream of N parts — nonempty boundary
token, nonempty frames, header blocks first terminated by the CRLFCRLF blank
line, boundary token not occurring inside a frame, body (closed by the final
boundary and "--" CRLF epilogue) fitting the 100 KiB accumulation buffer — N
successive fetchFrame calls return exactly the N frames in order, each equal
to the bytes between its part's header terminator and the next boundary
token; afterwards the buffer has been compacted in place down to the final
boundary plus epilogue (each step keeps a tail of the same buffer, never a
reallocation). -/
theorem C3_multipart_frames (b : List Nat) (ps : List MPart) (hwf : StreamWF b ps) :
    ∃ sN : StreamState,
      fetchMany (initStream b ps) ps.length 1 =
        some (ps.map (fun p => p.frame), sN) ∧
      (ps ≠ [] → sN = ⟨b ++ streamEpilogue, [], b, ps.length, true⟩) := by
  cases ps with
  | nil => exact ⟨initStream b [], rfl, fun h => absurd rfl h⟩
  | cons p ps => exact ⟨_, fetchMany_initial_run b p ps hwf, fun _ => rfl⟩

/-- C3 witness: a concrete two-frame stream with boundary "--b": both frames
come back in order and the session ends on the final boundary plus
epilogue. -/
theorem C3_multipart_frames_witness :
    StreamWF [45, 45, 98] [⟨[72], [255, 216, 255, 217]⟩, ⟨[], [255, 216, 217]⟩] ∧
    ∃ sN : StreamState,
      fetchMany (initStream [45, 45, 98]
          [⟨[72], [255, 216, 255, 217]⟩, ⟨[], [255, 216, 217]⟩]) 2 1 =
        some ([[255, 216, 255, 217], [255, 216, 217]], sN) ∧
      ([⟨[72], [255, 216, 255, 217]⟩, ⟨[], [255, 216, 217]⟩] ≠ ([] : List MPart) →
        sN = ⟨[45, 45, 98] ++ streamEpilogue, [], [45, 45, 98], 2, true⟩) :=
  ⟨by decide, C3_multipart_frames [45, 45, 98]
    [⟨[72], [255, 216, 255, 217]⟩, ⟨[], [255, 216, 217]⟩] (by decide)⟩
